import Mathlib

/-!
Verification of the colors library (src/index.ts): a shallow embedding of the
color-model engine in Lean 4, with theorems settling the specification claims.

Modelling conventions:
* JS numbers are exact rationals; `JsNum := Option ℚ` where `none` stands for
  NaN (and for JS `undefined` read out of array bounds, which propagates through
  arithmetic exactly as NaN does).
* The one non-rational operation, `x ** 2.4` in the sRGB transfer function, is
  modelled over the real numbers with `Real.rpow`.
* JS strings are Lean strings; parsing and printing of numbers is modelled
  exactly for terminating decimals, the only values the library prints on the
  paths studied here.  The scientific-notation form of number literals
  (`1e3`), which no input or output in this development contains, is not
  modelled by `parseFloatData`.
-/

namespace Colors

/-- A JS number: `none` is NaN (or an `undefined` array read), `some q` the
exact rational value. -/
abbrev JsNum := Option ℚ

/-!
The field operations of `ℚ` in core Lean are kernel-irreducible, so to keep
every parser and converter evaluable by `decide` we express the rational
arithmetic of the pipeline through `Rat.divInt` on numerators and
denominators.  The lemmas `qAdd_eq`, `qSub_eq`, `qMul_eq`, `qDiv_eq`,
`qRound_eq` and `qTrunc_eq` below identify each helper with the ordinary
field operation it denotes, and all algebraic reasoning goes through them.
-/

/-- Rational addition (kernel-computable form; equals `a + b`). -/
def qAdd (a b : ℚ) : ℚ := Rat.divInt (a.num * b.den + b.num * a.den) (a.den * b.den)

/-- Rational subtraction (kernel-computable form; equals `a - b`). -/
def qSub (a b : ℚ) : ℚ := Rat.divInt (a.num * b.den - b.num * a.den) (a.den * b.den)

/-- Rational multiplication (kernel-computable form; equals `a * b`). -/
def qMul (a b : ℚ) : ℚ := Rat.divInt (a.num * b.num) (a.den * b.den)

/-- Rational division (kernel-computable form; equals `a / b`). -/
def qDiv (a b : ℚ) : ℚ := Rat.divInt (a.num * b.den) (a.den * b.num)

/-- Truncation toward zero (kernel-computable form): JS number-to-integer
truncation, `Int.tdiv` of numerator by denominator. -/
def qTrunc (q : ℚ) : ℤ := Int.tdiv q.num q.den

/-- Round half toward positive infinity (kernel-computable form; equals
Mathlib `round`, which is exactly JS `Math.round`). -/
def qRound (q : ℚ) : ℤ := ⌊Rat.divInt (2 * q.num + q.den) (2 * q.den)⌋

/-- Lift a binary rational operation to `JsNum`, propagating NaN. -/
def jBin (f : ℚ → ℚ → ℚ) : JsNum → JsNum → JsNum
  | some a, some b => some (f a b)
  | _, _ => none

/-- JS `+` on numbers. -/
def jAdd : JsNum → JsNum → JsNum := jBin qAdd

/-- JS `-` on numbers. -/
def jSub : JsNum → JsNum → JsNum := jBin qSub

/-- JS `*` on numbers. -/
def jMul : JsNum → JsNum → JsNum := jBin qMul

/-- JS `/` on numbers.  Division by zero (JS: ±Infinity) is modelled as `none`;
every division in the library is by a nonzero constant except the contrast
denominator, where the branch is unreachable for luminances of real colors. -/
def jDiv : JsNum → JsNum → JsNum
  | some a, some b => if b = 0 then none else some (qDiv a b)
  | _, _ => none

/-- `Math.min` (NaN-propagating). -/
def jMin : JsNum → JsNum → JsNum := jBin min

/-- `Math.max` (NaN-propagating). -/
def jMax : JsNum → JsNum → JsNum := jBin max

/-- JS `%`: remainder with the sign of the dividend,
`x % y = x - y * trunc (x / y)`; `x % 0` is NaN. -/
def jMod : JsNum → JsNum → JsNum
  | some x, some y =>
    if y = 0 then none else some (qSub x (qMul y ((qTrunc (qDiv x y) : ℤ) : ℚ)))
  | _, _ => none

/-- `Math.round`: round half toward positive infinity, which is exactly
Mathlib `round`. -/
def jRound : JsNum → JsNum
  | some x => some ((qRound x : ℤ) : ℚ)
  | none => none

/-- JS truthiness of a number: `0`, `NaN` and `undefined` are falsy. -/
def jsTruthy : JsNum → Bool
  | some q => if q = 0 then false else true
  | none => false

/-- The clamp helper: `Math.min(Math.max(min, value), max)`; the source
defaults are `min = 0`, `max = 1`, written explicitly at every use here. -/
def clamp (value lo hi : ℚ) : ℚ := min (max lo value) hi

/-! ## Characters and digit strings -/

/-- Whitespace skipped by JS `parseInt` / `parseFloat` (ASCII part). -/
def isWs (c : Char) : Bool := decide (c = ' ' ∨ c = '\t' ∨ c = '\n' ∨ c = '\r')

/-- Decimal digit test. -/
def isDigitC (c : Char) : Bool := decide ('0' ≤ c ∧ c ≤ '9')

/-- Hexadecimal digit test. -/
def isHexDigitC (c : Char) : Bool :=
  decide (('0' ≤ c ∧ c ≤ '9') ∨ ('a' ≤ c ∧ c ≤ 'f') ∨ ('A' ≤ c ∧ c ≤ 'F'))

/-- Value of a hexadecimal digit (0 on non-digits). -/
def hexVal (c : Char) : ℕ :=
  if '0' ≤ c ∧ c ≤ '9' then c.toNat - 48
  else if 'a' ≤ c ∧ c ≤ 'f' then c.toNat - 87
  else if 'A' ≤ c ∧ c ≤ 'F' then c.toNat - 55
  else 0

/-- The decimal digit character of a value below ten. -/
def dChar : ℕ → Char
  | 0 => '0' | 1 => '1' | 2 => '2' | 3 => '3' | 4 => '4'
  | 5 => '5' | 6 => '6' | 7 => '7' | 8 => '8' | _ => '9'

/-- The lowercase hexadecimal digit character of a value below sixteen
(as printed by JS `toString(16)`). -/
def hChar : ℕ → Char
  | 0 => '0' | 1 => '1' | 2 => '2' | 3 => '3' | 4 => '4'
  | 5 => '5' | 6 => '6' | 7 => '7' | 8 => '8' | 9 => '9'
  | 10 => 'a' | 11 => 'b' | 12 => 'c' | 13 => 'd' | 14 => 'e' | _ => 'f'

/-- Decimal rendering of a natural number, most significant digit first
(fuel-structural so the kernel can evaluate it). -/
def ntd : ℕ → ℕ → List Char
  | 0, _ => []
  | fuel + 1, n => if n < 10 then [dChar n] else ntd fuel (n / 10) ++ [dChar (n % 10)]

/-- Decimal rendering of a natural number. -/
def natToDec (n : ℕ) : List Char := ntd (n + 1) n

/-- Hexadecimal rendering, most significant digit first. -/
def nth16 : ℕ → ℕ → List Char
  | 0, _ => []
  | fuel + 1, n => if n < 16 then [hChar n] else nth16 fuel (n / 16) ++ [hChar (n % 16)]

/-- Hexadecimal rendering of a natural number (JS `toString(16)` on naturals). -/
def natToHex (n : ℕ) : List Char := nth16 (n + 1) n

/-- Value of a run of decimal digit characters. -/
def digitsToNat (l : List Char) : ℕ := l.foldl (fun a c => 10 * a + (c.toNat - 48)) 0

/-- Value of a run of hexadecimal digit characters. -/
def hexDigitsToNat (l : List Char) : ℕ := l.foldl (fun a c => 16 * a + hexVal c) 0

/-! ## Number printing (JS `toString` on numbers) -/

/-- Multiplicity of 2 in `n` (fuel-structural). -/
def v2 : ℕ → ℕ → ℕ
  | 0, _ => 0
  | fuel + 1, n => if n % 2 = 0 ∧ 2 ≤ n then v2 fuel (n / 2) + 1 else 0

/-- Multiplicity of 5 in `n` (fuel-structural). -/
def v5 : ℕ → ℕ → ℕ
  | 0, _ => 0
  | fuel + 1, n => if n % 5 = 0 ∧ 2 ≤ n then v5 fuel (n / 5) + 1 else 0

/-- Number of decimal fraction digits needed for a denominator: for
`d = 2^a * 5^b` this is `max a b`. -/
def decExp (d : ℕ) : ℕ := max (v2 d d) (v5 d d)

/-- A rational has a terminating decimal expansion (its denominator is of the
form `2^a * 5^b`).  Every finite JS double is such a rational. -/
def IsDecB (q : ℚ) : Bool :=
  decide (q.den = 2 ^ v2 q.den q.den * 5 ^ v5 q.den q.den)

/-- Left-pad a digit run with zeros to length `k`. -/
def padZeros (k : ℕ) (l : List Char) : List Char := List.replicate (k - l.length) '0' ++ l

/-- Decimal rendering of a nonnegative rational with a terminating expansion,
e.g. `1/2 ↦ "0.5"`, `255 ↦ "255"`.  This is what JS `toString` prints for every
such value (the shortest round-tripping decimal; `decExp` is the exact
fraction length, so no trailing zeros appear).  On rationals without a
terminating expansion — which never reach a printing site in this
development — the result is a best-effort decimal and not JS-exact. -/
def qToDecData (q : ℚ) : List Char :=
  let k := decExp q.den
  let m := (qMul q ((10 ^ k : ℕ) : ℚ)).num.toNat
  if k = 0 then natToDec m
  else natToDec (m / 10 ^ k) ++ '.' :: padZeros k (natToDec (m % 10 ^ k))

/-- Decimal rendering of a rational (sign handled as JS does). -/
def numToStrData (q : ℚ) : List Char :=
  if q < 0 then '-' :: qToDecData (-q) else qToDecData q

/-- JS string interpolation / `join` rendering of a number; NaN prints
as `NaN`. -/
def jsNumToString : JsNum → List Char
  | none => ['N', 'a', 'N']
  | some q => numToStrData q

/-! ## Number parsing (JS `parseFloat` / `parseInt`) -/

/-- Optional sign at the head of a numeric literal. -/
def parseSign : List Char → ℚ × List Char
  | [] => (1, [])
  | c :: r => if c = '-' then (-1, r) else if c = '+' then (1, r) else (1, c :: r)

/-- JS `parseFloat`: skip whitespace, optional sign, integer digits, optional
point and fraction digits; NaN when no digits at all.  The exponent form
(`1e3`) and `Infinity`, which no string in this development contains, are not
modelled. -/
def parseFloatData (l : List Char) : JsNum :=
  let l1 := l.dropWhile isWs
  let sr := parseSign l1
  let ip := sr.2.takeWhile isDigitC
  let l3 := sr.2.dropWhile isDigitC
  let fp := match l3 with
    | c :: r => if c = '.' then r.takeWhile isDigitC else []
    | [] => []
  if ip = [] ∧ fp = [] then none
  else some (qMul sr.1
    (qAdd (digitsToNat ip : ℚ) (qDiv (digitsToNat fp : ℚ) ((10 ^ fp.length : ℕ) : ℚ))))

/-- JS `parseInt(s, 10)`: skip whitespace, optional sign, longest run of
decimal digits; NaN when the run is empty. -/
def parseIntDec (l : List Char) : JsNum :=
  let l1 := l.dropWhile isWs
  let sr := parseSign l1
  let ds := sr.2.takeWhile isDigitC
  if ds = [] then none else some (qMul sr.1 (digitsToNat ds : ℚ))

/-- The `0x` / `0X` strip of `parseInt` with radix 16. -/
def strip0x : List Char → List Char
  | a :: b :: r => if a = '0' ∧ (b = 'x' ∨ b = 'X') then r else a :: b :: r
  | l => l

/-- JS `parseInt(s, 16)`: skip whitespace, optional sign, optional `0x`,
longest run of hex digits; NaN when the run is empty. -/
def parseIntHex (l : List Char) : JsNum :=
  let l1 := l.dropWhile isWs
  let sr := parseSign l1
  let ds := (strip0x sr.2).takeWhile isHexDigitC
  if ds = [] then none else some (qMul sr.1 (hexDigitsToNat ds : ℚ))

/-! ## The data model -/

/-- The canonical color: a kind string and a sequence of numeric components
(mirrors the `ColorObject` interface of the source). -/
structure ColorObject where
  type : String
  values : List JsNum
deriving DecidableEq

/-- The untagged `ColorObject | string` input union of the source. -/
inductive ColorInput where
  | obj (c : ColorObject)
  | str (s : String)
deriving DecidableEq

deriving instance DecidableEq for Except

/-- `isColorType`: membership of the four recognized kind strings. -/
def isColorType (input : String) : Bool :=
  decide (input = "rgb" ∨ input = "rgba" ∨ input = "hsl" ∨ input = "hsla")

/-- The JS `isColorObject` guard checks `typeof input.type === 'string'` and
`Array.isArray(input.values)` — it does not check that the kind is recognized.
Every value of our `ColorObject` type has a string `type` field and a list
`values` field, so inside the `ColorObject | string` domain the guard holds
exactly of the structured alternative. -/
def isColorObject : ColorInput → Bool
  | .obj _ => true
  | .str _ => false

/-! ## String utilities mirroring the JS ones -/

/-- `String.prototype.split(',')`. -/
def splitComma : List Char → List (List Char)
  | [] => [[]]
  | c :: r =>
    match splitComma r with
    | [] => [[c]]
    | h :: t => if c = ',' then [] :: h :: t else (c :: h) :: t

/-- `String.prototype.substring`: both indices clamped into `[0, length]` and
swapped when out of order. -/
def substringJs (l : List Char) (st en : ℤ) : List Char :=
  let n : ℤ := l.length
  let a := (max 0 (min st n)).toNat
  let b := (max 0 (min en n)).toNat
  (l.take (max a b)).drop (min a b)

/-- `String.prototype.indexOf` for a single character (`-1` when absent). -/
def indexOfChar (c : Char) (l : List Char) : ℤ :=
  match l.findIdx? (· == c) with
  | some i => (i : ℤ)
  | none => -1

/-- `Array.prototype.join(', ')` applied to rendered entries. -/
def interComma : List (List Char) → List Char
  | [] => []
  | [p] => p
  | p :: q :: r => p ++ ',' :: ' ' :: interComma (q :: r)

/-- JS array assignment `l[i] = v`: overwrite in range, extend with holes
(which read back as `undefined`, here `none`) past the end. -/
def jsSetIdx (l : List JsNum) (i : ℕ) (v : JsNum) : List JsNum :=
  if i < l.length then l.set i v
  else l ++ List.replicate (i - l.length) none ++ [v]

/-! ## hexToRgb -/

/-- The JS line terminators: LF, CR, LINE SEPARATOR (U+2028) and PARAGRAPH
SEPARATOR (U+2029).  The regex `.` (without the `s` flag) matches every
character except these four. -/
def isLineTerm (c : Char) : Bool :=
  decide (c = '\n' ∨ c = '\r' ∨ c = '\u2028' ∨ c = '\u2029')

/-- The matches of the regex `.{1,w}` with the `g` flag: scan the string,
greedily taking up to `w` consecutive characters, where `.` does not match a
line terminator (so line terminators are skipped between matches).
Fuel-structural; called with fuel = length. -/
def reM (w : ℕ) : ℕ → List Char → List (List Char)
  | 0, _ => []
  | _ + 1, [] => []
  | fuel + 1, c :: r =>
    if isLineTerm c then reM w fuel r
    else
      let t := (r.takeWhile (fun x => !isLineTerm x)).take (w - 1)
      (c :: t) :: reM w fuel (r.drop t.length)

/-- One rendered entry of the `hexToRgb` output: channels 0–2 are
`parseInt(n, 16)`, later entries are `Math.round((parseInt(n, 16) / 255) *
1000) / 1000`. -/
def hexEntry (i : ℕ) (g : List Char) : List Char :=
  if i < 3 then jsNumToString (parseIntHex g)
  else jsNumToString
    (jDiv (jRound (jMul (jDiv (parseIntHex g) (some 255)) (some 1000))) (some 1000))

/-- Index-aware map used for the positional entry rendering. -/
def mapEntries (f : ℕ → List Char → List Char) : ℕ → List (List Char) → List (List Char)
  | _, [] => []
  | i, g :: r => f i g :: mapEntries f (i + 1) r

/-- `hexToRgb`: drop the leading `#`, chunk the body into groups of width 2
(body length ≥ 6) or 1, double single-character groups, and render an
`rgb(...)` / `rgba(...)` string; the empty string when the regex finds no
group. -/
def hexToRgb (color : String) : String :=
  let body := color.data.drop 1
  let w := if 6 ≤ body.length then 2 else 1
  match reM w body.length body with
  | [] => ""
  | c0 :: rest =>
    let cs := if c0.length = 1 then (c0 :: rest).map (fun g => g ++ g) else c0 :: rest
    String.mk ((if cs.length = 4 then "rgba".data else "rgb".data) ++
      '(' :: interComma (mapEntries hexEntry 0 cs) ++ [')'])

/-! ## decomposeColor / recomposeColor -/

/-- The message of the `UnsupportedFormatError` thrown by the parser. -/
def unsupportedMsg (color : String) : String :=
  "Unsupported \x27" ++ color ++ "\x27 color.\n" ++
    "We support the following formats: #nnn, #nnnnnn, rgb(), rgba(), hsl(), hsla()."

/-- The string arm of `decomposeColor`.  The JS source recurses through
`decomposeColor(hexToRgb(color))`; since `hexToRgb` returns either the empty
string or a string beginning with `rgb`, never one beginning with `#`, the
recursion is at most one level deep and fuel 2 reproduces it exactly (the
fuel-0 arm is unreachable). -/
def decomposeStr : ℕ → String → Except String ColorObject
  | 0, _ => .error "unreachable: hexToRgb output never begins with a hash"
  | fuel + 1, s =>
    if s.data.head? = some '#' then decomposeStr fuel (hexToRgb s)
    else
      let l := s.data
      let marker := indexOfChar '(' l
      let type := String.mk (substringJs l 0 marker)
      if isColorType type then
        .ok ⟨type, (splitComma (substringJs l (marker + 1) ((l.length : ℤ) - 1))).map
          parseFloatData⟩
      else
        .error (unsupportedMsg s)

/-- `decomposeColor`: identity on structured inputs, parser on strings. -/
def decomposeColor : ColorInput → Except String ColorObject
  | .obj c => .ok c
  | .str s => decomposeStr 2 s

/-- The rgb-kind entry rendering of `recomposeColor`: the first three entries
go through `parseInt(n, 10)` (JS stringifies the number first, so this
truncates toward zero), later entries (alpha) are rendered as-is. -/
def rgbEntries : ℕ → List JsNum → List (List Char)
  | _, [] => []
  | i, v :: r =>
    (if i < 3 then jsNumToString (parseIntDec (jsNumToString v)) else jsNumToString v) ::
      rgbEntries (i + 1) r

/-- The hsl-kind entry rendering of `recomposeColor`: entries 1 and 2
(saturation, lightness) get a `%` suffix. -/
def hslEntries : ℕ → List JsNum → List (List Char)
  | _, [] => []
  | i, v :: r =>
    (if i = 1 ∨ i = 2 then jsNumToString v ++ ['%'] else jsNumToString v) ::
      hslEntries (i + 1) r

/-- `recomposeColor`: assemble `kind(entry, entry, ...)`, with the rgb-kind
integer truncation and the hsl-kind percent suffixes dispatched on the kind
string by prefix, as in the source. -/
def recomposeColor (color : ColorObject) : String :=
  let entries :=
    if List.isPrefixOf "rgb".data color.type.data then rgbEntries 0 color.values
    else if List.isPrefixOf "hsl".data color.type.data then hslEntries 0 color.values
    else color.values.map jsNumToString
  String.mk (color.type.data ++ '(' :: interComma entries ++ [')'])

/-! ## hslToRgb -/

/-- The channel formula `f(n)` of `hslToRgb`:
`k = (n + h/30) % 12`, `f = l - a * max(min(k-3, 9-k, 1), -1)`. -/
def hslF (l a h : JsNum) (n : ℚ) : JsNum :=
  let k := jMod (jAdd (some n) (jDiv h (some 30))) (some 12)
  jSub l (jMul a (jMax (jMin (jSub k (some 3)) (jMin (jSub (some 9) k) (some 1)))
    (some (-1))))

/-- The structured result of `hslToRgb` before recomposition: three rounded
channels for n = 0, 8, 4, the kind promoted to `rgba` (with the alpha pushed
through) exactly when the source kind is `hsla` and its fourth component is
truthy. -/
def hslToRgbObj (c : ColorObject) : ColorObject :=
  let h := c.values.getD 0 none
  let s := jDiv (c.values.getD 1 none) (some 100)
  let l := jDiv (c.values.getD 2 none) (some 100)
  let a := jMul s (jMin l (jSub (some 1) l))
  let rgb := [jRound (jMul (hslF l a h 0) (some 255)),
              jRound (jMul (hslF l a h 8) (some 255)),
              jRound (jMul (hslF l a h 4) (some 255))]
  if c.type = "hsla" ∧ jsTruthy (c.values.getD 3 none) then
    ⟨"rgba", rgb ++ [c.values.getD 3 none]⟩
  else
    ⟨"rgb", rgb⟩

/-- `hslToRgb`: decompose, convert, recompose. -/
def hslToRgb (color : ColorInput) : Except String String := do
  let c ← decomposeColor color
  pure (recomposeColor (hslToRgbObj c))

/-! ## Luminance and contrast -/

/-- The sRGB transfer function applied to one channel value `val`:
`val /= 255; val <= 0.03928 ? val / 12.92 : ((val + 0.055) / 1.055) ** 2.4`.
The non-integer power forces the real numbers here. -/
noncomputable def srgbTransfer (v : JsNum) : Option ℝ :=
  match v with
  | none => none
  | some q =>
    let q2 := q / 255
    if q2 ≤ 0.03928 then some ((q2 / 12.92 : ℚ) : ℝ)
    else some ((((q2 + 0.055) / 1.055 : ℚ) : ℝ) ^ (2.4 : ℝ))

/-- The weighted luminance sum `0.2126 R + 0.7152 G + 0.0722 B`
(NaN-propagating). -/
noncomputable def lumMix : Option ℝ → Option ℝ → Option ℝ → Option ℝ
  | some r, some g, some b => some (0.2126 * r + 0.7152 * g + 0.0722 * b)
  | _, _, _ => none

/-- `Number(x.toFixed(3))`: round to the nearest multiple of 1/1000, ties
toward positive infinity (the ECMA `toFixed` tie rule), NaN passed through. -/
noncomputable def toFixed3 : Option ℝ → Option ℝ
  | some x => some (((round (x * 1000) : ℤ) : ℝ) / 1000)
  | none => none

/-- `getLuminance`: decompose; when the kind is exactly `hsl` re-decompose the
`hslToRgb` conversion; apply the transfer function to every component and mix
the first three. -/
noncomputable def getLuminance (color : ColorInput) : Except String (Option ℝ) := do
  let c ← decomposeColor color
  let vals ←
    if c.type = "hsl" then do
      let s ← hslToRgb (.obj c)
      let c2 ← decomposeColor (.str s)
      pure c2.values
    else
      pure c.values
  let rgb := vals.map srgbTransfer
  pure (toFixed3 (lumMix (rgb.getD 0 none) (rgb.getD 1 none) (rgb.getD 2 none)))

open Classical in
/-- The contrast formula `(max(La, Lb) + 0.05) / (min(La, Lb) + 0.05)`
(NaN-propagating; the division-by-zero arm, JS Infinity, is modelled as
`none`). -/
noncomputable def contrastOf : Option ℝ → Option ℝ → Option ℝ
  | some a, some b =>
    if min a b + 0.05 = 0 then none else some ((max a b + 0.05) / (min a b + 0.05))
  | _, _ => none

/-- `getContrastRatio` on two color strings. -/
noncomputable def getContrastRatio (foreground background : String) :
    Except String (Option ℝ) := do
  let lumA ← getLuminance (.str foreground)
  let lumB ← getLuminance (.str background)
  pure (contrastOf lumA lumB)

/-! ## fade (setAlpha) -/

/-- The structured effect of `fade`: clamp the value into `[0, 1]`, append an
`a` to an `rgb` or `hsl` kind, write component 3. -/
def fadeObj (c : ColorObject) (value : ℚ) : ColorObject :=
  ⟨if c.type = "rgb" ∨ c.type = "hsl" then c.type ++ "a" else c.type,
   jsSetIdx c.values 3 (some (clamp value 0 1))⟩

/-- `fade(color, value)`: decompose, set alpha, recompose. -/
def fade (color : ColorInput) (value : ℚ) : Except String String := do
  let c ← decomposeColor color
  pure (recomposeColor (fadeObj c value))

/-! ## rgbToHex -/

/-- JS `intToHex`: `int.toString(16)` zero-padded to two digits.
`toString(16)` of a negative integer is the sign followed by hex digits; the
hex rendering of a fractional number (hex digits after a point) is simplified
to its integer part here — every call site in the library passes decomposed
channel values, integers on the paths studied. -/
def intToHex (v : JsNum) : List Char :=
  match v with
  | none => ['N', 'a', 'N']
  | some q =>
    let s := (if q < 0 then ['-'] else []) ++ natToHex (qTrunc |q|).toNat
    if s.length = 1 then '0' :: s else s

/-- The hex rendering of a decomposed color: `#` then every component as a
hex byte (note: all components, including any alpha, exactly as the source
does). -/
def rgbToHexObj (c : ColorObject) : String :=
  String.mk ('#' :: (c.values.map intToHex).flatten)

/-- `rgbToHex`: a string already beginning with `#` is returned unchanged;
otherwise decompose and render. -/
def rgbToHex : ColorInput → Except String String
  | .str s =>
    if List.isPrefixOf ['#'] s.data then .ok s
    else do
      let c ← decomposeColor (.str s)
      pure (rgbToHexObj c)
  | .obj o => do
    let c ← decomposeColor (.obj o)
    pure (rgbToHexObj c)

/-- The 22 hexadecimal digit characters. -/
def hexDigitChars : List Char := "0123456789abcdefABCDEF".data

/-- The nominal component ranges of the specification (section 3): rgb/rgba
channels in [0, 255] with an optional alpha in [0, 1]; hsl/hsla hue in
[0, 360), saturation and lightness in [0, 100], optional alpha in [0, 1]. -/
def componentsInRange (t : String) (qs : List ℚ) : Prop :=
  if t = "rgb" ∨ t = "rgba" then
    (∀ q ∈ qs.take 3, 0 ≤ q ∧ q ≤ 255) ∧ ∀ q ∈ qs.drop 3, 0 ≤ q ∧ q ≤ 1
  else
    (∀ q ∈ qs.take 1, 0 ≤ q ∧ q < 360) ∧
      (∀ q ∈ (qs.drop 1).take 2, 0 ≤ q ∧ q ≤ 100) ∧
      ∀ q ∈ qs.drop 3, 0 ≤ q ∧ q ≤ 1

/-- From the words of claim C6 (the spec side of the comparison): the input
decomposes into valid hex groups when the chunking of its body produces at
least one group and every character of every group is a hexadecimal digit. -/
def hexGroupsValid (color : String) : Bool :=
  let body := color.data.drop 1
  let w := if 6 ≤ body.length then 2 else 1
  let groups := reM w body.length body
  !groups.isEmpty && groups.all (fun g => g.all isHexDigitC)

/-! # Theorems -/

/-! ## The computable rational helpers denote the field operations -/

theorem den_cast_ne (a : ℚ) : ((a.den : ℚ)) ≠ 0 :=
  Nat.cast_ne_zero.mpr a.den_nz

theorem qAdd_eq (a b : ℚ) : qAdd a b = a + b := by
  rw [qAdd, Rat.divInt_eq_div]
  conv_rhs => rw [← Rat.num_div_den a, ← Rat.num_div_den b,
    div_add_div _ _ (den_cast_ne a) (den_cast_ne b)]
  push_cast
  ring_nf

theorem qSub_eq (a b : ℚ) : qSub a b = a - b := by
  rw [qSub, Rat.divInt_eq_div]
  conv_rhs => rw [← Rat.num_div_den a, ← Rat.num_div_den b,
    div_sub_div _ _ (den_cast_ne a) (den_cast_ne b)]
  push_cast
  ring_nf

theorem qMul_eq (a b : ℚ) : qMul a b = a * b := by
  rw [qMul, Rat.divInt_eq_div]
  conv_rhs => rw [← Rat.num_div_den a, ← Rat.num_div_den b, div_mul_div_comm]
  push_cast
  ring_nf

theorem qDiv_eq (a b : ℚ) : qDiv a b = a / b := by
  rcases eq_or_ne b 0 with rfl | hb
  · simp [qDiv, Rat.divInt_eq_div]
  · have hbn : (b.num : ℚ) ≠ 0 := by
      simpa using Rat.num_ne_zero.mpr hb
    have ha := den_cast_ne a
    have hbd := den_cast_ne b
    rw [qDiv, Rat.divInt_eq_div]
    conv_rhs => rw [← Rat.num_div_den a, ← Rat.num_div_den b]
    push_cast
    field_simp

theorem qRound_eq (q : ℚ) : qRound q = round q := by
  rw [qRound, round_eq]
  congr 1
  rw [Rat.divInt_eq_div]
  conv_rhs => rw [← Rat.num_div_den q]
  push_cast
  field_simp
  ring

theorem qTrunc_natCast (n : ℕ) : qTrunc ((n : ℕ) : ℚ) = n := by
  rw [qTrunc]
  simp

/-! ## Basic JsNum computation lemmas -/

theorem jAdd_some (a b : ℚ) : jAdd (some a) (some b) = some (a + b) := by
  rw [jAdd, jBin, qAdd_eq]

theorem jSub_some (a b : ℚ) : jSub (some a) (some b) = some (a - b) := by
  rw [jSub, jBin, qSub_eq]

theorem jMul_some (a b : ℚ) : jMul (some a) (some b) = some (a * b) := by
  rw [jMul, jBin, qMul_eq]

theorem jMin_some (a b : ℚ) : jMin (some a) (some b) = some (min a b) := rfl

theorem jMax_some (a b : ℚ) : jMax (some a) (some b) = some (max a b) := rfl

theorem jDiv_some (a b : ℚ) (hb : b ≠ 0) : jDiv (some a) (some b) = some (a / b) := by
  rw [jDiv, if_neg hb, qDiv_eq]

theorem jRound_some (a : ℚ) : jRound (some a) = some ((round a : ℤ) : ℚ) := by
  rw [jRound, qRound_eq]

/-! ## Claim C5: identity pass-through of decompose on structured inputs -/

/-- Claim C5 counterexample: the structured input with the unrecognized kind
`banana` IS passed through unchanged by decompose (the structural guard does
not check that the kind is one of the four recognized ones), refuting the
claim that such an input is not passed through unchanged. -/
theorem c5_counterexample :
    decomposeColor (.obj ⟨"banana", []⟩) = .ok ⟨"banana", []⟩ ∧
      isColorType "banana" = false ∧
      isColorObject (.obj ⟨"banana", []⟩) = true := by
  refine ⟨rfl, by decide, rfl⟩

/-- Claim C5 (amended): decompose returns a structured input unchanged
whenever the structural guard `isColorObject` holds of it — which, inside the
`ColorObject | string` domain, is every structured input, regardless of
whether its kind is one of the four recognized kinds. -/
theorem c5_passthrough_amended (c : ColorObject) :
    isColorObject (.obj c) = true ∧ decomposeColor (.obj c) = .ok c :=
  ⟨rfl, rfl⟩

/-! ## Claim C7: hslToRgb kind and alpha handling -/

/-- Claim C7: for a source of kind hsla, hslToRgb produces kind rgba with the
alpha component carried through unchanged when the alpha is truthy, and
otherwise (alpha zero or NaN, or source kind hsl) kind rgb with exactly three
components (no alpha). -/
theorem c7_hsla_alpha (c : ColorObject) (h : c.type = "hsla" ∨ c.type = "hsl") :
    ((c.type = "hsla" ∧ jsTruthy (c.values.getD 3 none) = true) →
      (hslToRgbObj c).type = "rgba" ∧
        (hslToRgbObj c).values.getD 3 none = c.values.getD 3 none ∧
        (hslToRgbObj c).values.length = 4) ∧
    (¬(c.type = "hsla" ∧ jsTruthy (c.values.getD 3 none) = true) →
      (hslToRgbObj c).type = "rgb" ∧ (hslToRgbObj c).values.length = 3) := by
  rw [hslToRgbObj]
  by_cases hc : c.type = "hsla" ∧ jsTruthy (c.values.getD 3 none) = true
  · rw [if_pos hc]
    exact ⟨fun _ => ⟨rfl, rfl, rfl⟩, fun hn => absurd hc hn⟩
  · rw [if_neg hc]
    exact ⟨fun hcc => absurd hcc hc, fun _ => ⟨rfl, rfl⟩⟩

/-- Claim C7 witness at hsla(0, 100%, 50%, 1): the conversion yields kind rgba
and carries the alpha 1 through in position 3. -/
theorem c7_hsla_alpha_witness :
    (hslToRgbObj ⟨"hsla", [some 0, some 100, some 50, some 1]⟩).type = "rgba" ∧
      (hslToRgbObj ⟨"hsla", [some 0, some 100, some 50, some 1]⟩).values.getD 3 none
        = some 1 := by
  have h := c7_hsla_alpha ⟨"hsla", [some 0, some 100, some 50, some 1]⟩ (Or.inl rfl)
  have h2 := h.1 ⟨rfl, by decide⟩
  exact ⟨h2.1, h2.2.1⟩

/-! ## Claim C8: fade (setAlpha) -/

theorem jsSetIdx_getD (l : List JsNum) (v : JsNum) :
    (jsSetIdx l 3 v).getD 3 none = v := by
  rw [jsSetIdx]
  by_cases h : 3 < l.length
  · rw [if_pos h, List.getD_eq_getElem?_getD, List.getElem?_set_self (by omega)]
    rfl
  · rw [if_neg h, List.getD_eq_getElem?_getD]
    have hlen : (l ++ List.replicate (3 - l.length) none).length = 3 := by
      simp
      omega
    rw [List.getElem?_append_right hlen.le, hlen]
    rfl

/-- Claim C8: fade clamps the value into [0, 1], promotes kind rgb to rgba and
hsl to hsla (a kind with an existing alpha slot is kept), writes the clamped
value as component 3 unconditionally (an absolute set), and on the concrete
example produces `rgba(1, 2, 3, 0.5)`. -/
theorem c8_fade (c : ColorObject) (v : ℚ) :
    (fadeObj c v).type =
      (if c.type = "rgb" then "rgba" else if c.type = "hsl" then "hsla" else c.type) ∧
    (fadeObj c v).values.getD 3 none = some (clamp v 0 1) ∧
    0 ≤ clamp v 0 1 ∧ clamp v 0 1 ≤ 1 ∧
    fade (.str "rgb(1, 2, 3)") (1 / 2) = .ok "rgba(1, 2, 3, 0.5)" := by
  refine ⟨?_, jsSetIdx_getD _ _, le_min (le_max_left 0 v) zero_le_one,
    min_le_right _ _, ?_⟩
  · rw [fadeObj]
    by_cases h1 : c.type = "rgb"
    · rw [if_pos (Or.inl h1), if_pos h1, h1]
      rfl
    · by_cases h2 : c.type = "hsl"
      · rw [if_pos (Or.inr h2), if_neg h1, if_pos h2, h2]
        rfl
      · rw [if_neg (by tauto), if_neg h1, if_neg h2]
  · have hv : (1 / 2 : ℚ) = mkRat 1 2 := by
      rw [Rat.mkRat_eq_divInt, Rat.divInt_eq_div]
      norm_num
    rw [hv]
    decide

/-! ## Claim C4: the UnsupportedFormatError condition -/

theorem findIdx_take (l : List Char) (h : '(' ∈ l) :
    ∃ i : ℕ, List.findIdx? (· == '(') l = some i ∧ i ≤ l.length ∧
      l.take i = l.takeWhile (· != '(') := by
  induction l with
  | nil => simp at h
  | cons c r ih =>
    by_cases hc : c = '('
    · subst hc
      refine ⟨0, ?_, by omega, ?_⟩
      · rw [List.findIdx?_cons]
        simp
      · simp [List.takeWhile_cons]
    · have hr : '(' ∈ r := by
        rcases List.mem_cons.mp h with h1 | h1
        · exact absurd h1.symm hc
        · exact h1
      obtain ⟨i, hfi, hle, htk⟩ := ih hr
      refine ⟨i + 1, ?_, by simpa using Nat.succ_le_succ hle, ?_⟩
      · rw [List.findIdx?_cons, if_neg (by simpa using hc), List.findIdx?_succ, hfi]
        rfl
      · rw [List.take_succ_cons, List.takeWhile_cons, if_pos (by simpa using hc), htk]

theorem substringJs_nat (l : List Char) (a b : ℕ) (hb : b ≤ l.length) (hab : a ≤ b) :
    substringJs l (a : ℤ) (b : ℤ) = (l.take b).drop a := by
  simp only [substringJs]
  have h1 : (max 0 (min (a : ℤ) (l.length : ℤ))).toNat = a := by omega
  have h2 : (max 0 (min (b : ℤ) (l.length : ℤ))).toNat = b := by omega
  rw [h1, h2, max_eq_right hab, min_eq_left hab]

theorem substringJs_zero (l : List Char) (b : ℕ) (hb : b ≤ l.length) :
    substringJs l 0 (b : ℤ) = l.take b := by
  have h := substringJs_nat l 0 b hb (Nat.zero_le b)
  simpa using h

/-- Claim C4: on a function-notation color string (one containing a `(`, not
in hex form), decompose raises the UnsupportedFormatError exactly when the
text before the first `(` is not one of the four recognized kinds; in
particular it does so on `unsupported(1,2,3)`. -/
theorem c4_unsupported_error (s : String) (hpar : '(' ∈ s.data)
    (hhash : s.data.head? ≠ some '#') :
    (decomposeColor (.str s) = .error (unsupportedMsg s) ↔
      isColorType (String.mk (s.data.takeWhile (· != '('))) = false) ∧
    decomposeColor (.str "unsupported(1,2,3)") =
      .error (unsupportedMsg "unsupported(1,2,3)") := by
  refine ⟨?_, by decide⟩
  obtain ⟨i, hfi, hle, htk⟩ := findIdx_take s.data hpar
  have hmark : indexOfChar '(' s.data = (i : ℤ) := by rw [indexOfChar, hfi]
  have hsub : substringJs s.data 0 (i : ℤ) = s.data.takeWhile (· != '(') := by
    rw [substringJs_zero s.data i hle, htk]
  show decomposeStr 2 s = _ ↔ _
  rw [show (2 : ℕ) = 1 + 1 from rfl, decomposeStr, if_neg hhash]
  simp only []
  rw [hmark, hsub]
  by_cases hct : isColorType (String.mk (s.data.takeWhile (· != '('))) = true
  · rw [if_pos hct]
    simp [hct]
  · rw [if_neg hct]
    simp only [Bool.not_eq_true] at hct
    simp [hct]

/-- Claim C4 witness: `foo(1)` is function notation with an unrecognized
kind, and decompose raises the UnsupportedFormatError on it. -/
theorem c4_unsupported_error_witness :
    decomposeColor (.str "foo(1)") = .error (unsupportedMsg "foo(1)") := by
  have h := c4_unsupported_error "foo(1)" (by decide) (by decide)
  exact h.1.mpr (by decide)

/-! ## Claim C6: when hexToRgb returns the empty string -/

/-- Claim C6 counterexample: `#xyz` does not decompose into valid hex groups
(its groups consist of non-hex characters), yet hexToRgb returns the nonempty
string `rgb(NaN, NaN, NaN)`, not the empty string. -/
theorem c6_counterexample :
    hexGroupsValid "#xyz" = false ∧ hexToRgb "#xyz" = "rgb(NaN, NaN, NaN)" := by
  constructor
  · decide
  · decide

theorem reM_eq_nil_iff (w : ℕ) (fuel : ℕ) : ∀ (l : List Char), l.length ≤ fuel →
    (reM w fuel l = [] ↔ ∀ c ∈ l, isLineTerm c = true) := by
  induction fuel with
  | zero =>
    intro l hl
    have hnil : l = [] := List.eq_nil_of_length_eq_zero (Nat.le_zero.mp hl)
    subst hnil
    simp [reM]
  | succ f ih =>
    intro l hl
    cases l with
    | nil => simp [reM]
    | cons c r =>
      rw [reM]
      by_cases hc : isLineTerm c = true
      · rw [if_pos hc]
        rw [ih r (by simpa using Nat.le_of_succ_le_succ hl)]
        simp [List.forall_mem_cons, hc]
      · rw [if_neg hc]
        simp only []
        constructor
        · intro habs
          exact absurd habs (List.cons_ne_nil _ _)
        · intro hall
          exact absurd (hall c (List.mem_cons_self c r)) hc

/-- Claim C6 (amended): hexToRgb returns the empty string exactly when the
regex finds no group in the body after the leading character is dropped —
that is, when every remaining character is a line terminator (LF, CR, U+2028
or U+2029; in particular when the body is empty).  The contents of the groups
are never validated: non-hex digits produce NaN components in a nonempty
output string. -/
theorem c6_empty_iff_amended (s : String) :
    hexToRgb s = "" ↔ ∀ c ∈ s.data.drop 1, isLineTerm c = true := by
  rw [hexToRgb]
  simp only []
  have h := reM_eq_nil_iff (if 6 ≤ (s.data.drop 1).length then 2 else 1)
    (s.data.drop 1).length (s.data.drop 1) le_rfl
  cases hm : reM (if 6 ≤ (s.data.drop 1).length then 2 else 1)
      (s.data.drop 1).length (s.data.drop 1) with
  | nil =>
    rw [hm] at h
    simp only [hm]
    simpa using h.mp rfl
  | cons c0 rest =>
    rw [hm] at h
    simp only [hm]
    have hrhs : ¬ ∀ c ∈ s.data.drop 1, isLineTerm c = true := fun hall =>
      absurd (h.mpr hall) (List.cons_ne_nil _ _)
    simp only [hrhs, iff_false]
    intro habs
    have hdata := congrArg String.data habs
    by_cases h4 : (if c0.length = 1 then
        (c0 :: rest).map (fun g => g ++ g) else c0 :: rest).length = 4
    · rw [if_pos h4] at hdata
      simp at hdata
    · rw [if_neg h4] at hdata
      simp at hdata

/-! ## Claim C10: hslToRgb channels stay in the byte range -/

theorem jMod_some (x y : ℚ) (hy : y ≠ 0) :
    jMod (some x) (some y) = some (x - y * ((qTrunc (qDiv x y) : ℤ) : ℚ)) := by
  show (if y = 0 then none
      else some (qSub x (qMul y ((qTrunc (qDiv x y) : ℤ) : ℚ)))) = _
  rw [if_neg hy, qSub_eq, qMul_eq]

theorem hslF_some (l a h n : ℚ) :
    ∃ k : ℚ, hslF (some l) (some a) (some h) n =
      some (l - a * max (min (k - 3) (min (9 - k) 1)) (-1)) := by
  refine ⟨(n + h / 30) - 12 * ((qTrunc (qDiv (n + h / 30) 12) : ℤ) : ℚ), ?_⟩
  rw [hslF, jDiv_some h 30 (by norm_num), jAdd_some,
    jMod_some _ 12 (by norm_num), jSub_some, jSub_some, jMin_some, jMin_some,
    jMax_some, jMul_some, jSub_some]

theorem channel_round_bound (l a ct : ℚ) (_hl0 : 0 ≤ l) (_hl1 : l ≤ 1)
    (ha0 : 0 ≤ a) (ham : a ≤ min l (1 - l)) (hct : -1 ≤ ct) (hct1 : ct ≤ 1) :
    0 ≤ round ((l - a * ct) * 255) ∧ round ((l - a * ct) * 255) ≤ 255 := by
  have h1 : a * ct ≤ a := by nlinarith
  have h2 : -a ≤ a * ct := by nlinarith
  have h3 : a ≤ l := ham.trans (min_le_left _ _)
  have h4 : a ≤ 1 - l := ham.trans (min_le_right _ _)
  have hf0 : 0 ≤ l - a * ct := by linarith
  have hf1 : l - a * ct ≤ 1 := by linarith
  constructor
  · rw [round_eq]
    apply Int.floor_nonneg.mpr
    nlinarith
  · rw [round_eq]
    have hlt : ⌊(l - a * ct) * 255 + 1 / 2⌋ < 256 := Int.floor_lt.mpr (by nlinarith)
    omega

/-- Claim C10: for every hsl or hsla color whose saturation and lightness are
in [0, 100] and whose hue is any finite number, the three RGB channel values
computed by hslToRgb are integers in [0, 255]. -/
theorem c10_channels_in_byte_range (c : ColorObject)
    (ht : c.type = "hsl" ∨ c.type = "hsla")
    (hh : ∃ h0 : ℚ, c.values.getD 0 none = some h0)
    (hs : ∃ s0 : ℚ, c.values.getD 1 none = some s0 ∧ 0 ≤ s0 ∧ s0 ≤ 100)
    (hl : ∃ l0 : ℚ, c.values.getD 2 none = some l0 ∧ 0 ≤ l0 ∧ l0 ≤ 100) :
    ∃ r g b : ℤ,
      (hslToRgbObj c).values.take 3 = [some (r : ℚ), some (g : ℚ), some (b : ℚ)] ∧
      0 ≤ r ∧ r ≤ 255 ∧ 0 ≤ g ∧ g ≤ 255 ∧ 0 ≤ b ∧ b ≤ 255 := by
  obtain ⟨h0, hh0⟩ := hh
  obtain ⟨s0, hs0, hs0a, hs0b⟩ := hs
  obtain ⟨l0, hl0, hl0a, hl0b⟩ := hl
  have hl100 : (0 : ℚ) ≤ l0 / 100 ∧ l0 / 100 ≤ 1 := by constructor <;> linarith
  have hs100 : (0 : ℚ) ≤ s0 / 100 ∧ s0 / 100 ≤ 1 := by constructor <;> linarith
  have hmin0 : (0 : ℚ) ≤ min (l0 / 100) (1 - l0 / 100) :=
    le_min hl100.1 (by linarith)
  have ha0 : (0 : ℚ) ≤ s0 / 100 * min (l0 / 100) (1 - l0 / 100) :=
    mul_nonneg hs100.1 hmin0
  have ham : s0 / 100 * min (l0 / 100) (1 - l0 / 100) ≤ min (l0 / 100) (1 - l0 / 100) :=
    mul_le_of_le_one_left hmin0 hs100.2
  have hchan : ∀ n : ℚ, ∃ m : ℤ,
      jRound (jMul (hslF (some (l0 / 100))
        (some (s0 / 100 * min (l0 / 100) (1 - l0 / 100))) (some h0) n) (some 255)) =
        some ((m : ℤ) : ℚ) ∧ 0 ≤ m ∧ m ≤ 255 := by
    intro n
    obtain ⟨k, hk⟩ := hslF_some (l0 / 100)
      (s0 / 100 * min (l0 / 100) (1 - l0 / 100)) h0 n
    rw [hk, jMul_some, jRound_some]
    have hct : (-1 : ℚ) ≤ max (min (k - 3) (min (9 - k) 1)) (-1) := le_max_right _ _
    have hct1 : max (min (k - 3) (min (9 - k) 1)) (-1) ≤ 1 :=
      max_le ((min_le_right _ _).trans (min_le_right _ _)) (by norm_num)
    obtain ⟨hb0, hb1⟩ := channel_round_bound (l0 / 100)
      (s0 / 100 * min (l0 / 100) (1 - l0 / 100))
      (max (min (k - 3) (min (9 - k) 1)) (-1)) hl100.1 hl100.2 ha0 ham hct hct1
    exact ⟨_, rfl, hb0, hb1⟩
  rw [hslToRgbObj, hh0, hs0, hl0, jDiv_some s0 100 (by norm_num),
    jDiv_some l0 100 (by norm_num), jSub_some, jMin_some, jMul_some]
  obtain ⟨r, hr, hr0, hr1⟩ := hchan 0
  obtain ⟨g, hg, hg0, hg1⟩ := hchan 8
  obtain ⟨b, hb, hb0, hb1⟩ := hchan 4
  refine ⟨r, g, b, ?_, hr0, hr1, hg0, hg1, hb0, hb1⟩
  by_cases hcond : c.type = "hsla" ∧ jsTruthy (c.values.getD 3 none) = true
  · rw [if_pos hcond]
    simp only [List.cons_append, List.nil_append, List.take_cons, List.take_nil]
    rw [hr, hg, hb]
    rfl
  · rw [if_neg hcond]
    rw [hr, hg, hb]
    rfl

/-- Claim C10 witness at hsl(0, 100%, 50%): the three channels are integers
in the byte range. -/
theorem c10_channels_in_byte_range_witness :
    ∃ r g b : ℤ,
      (hslToRgbObj ⟨"hsl", [some 0, some 100, some 50]⟩).values.take 3 =
        [some (r : ℚ), some (g : ℚ), some (b : ℚ)] ∧
      0 ≤ r ∧ r ≤ 255 ∧ 0 ≤ g ∧ g ≤ 255 ∧ 0 ≤ b ∧ b ≤ 255 :=
  c10_channels_in_byte_range ⟨"hsl", [some 0, some 100, some 50]⟩ (Or.inl rfl)
    ⟨0, rfl⟩ ⟨100, rfl, by norm_num, by norm_num⟩ ⟨50, rfl, by norm_num, by norm_num⟩

/-! ## Luminance evaluation helpers -/

theorem ok_bind {α β : Type} (a : α) (f : α → Except String β) :
    (Except.ok a >>= f) = f a := rfl

theorem error_bind {α β : Type} (e : String) (f : α → Except String β) :
    ((Except.error e : Except String α) >>= f) = Except.error e := rfl

theorem getLuminance_eval (input : ColorInput) (c : ColorObject)
    (hd : decomposeColor input = .ok c) (hns : c.type ≠ "hsl") :
    getLuminance input = .ok (toFixed3 (lumMix
      ((c.values.map srgbTransfer).getD 0 none)
      ((c.values.map srgbTransfer).getD 1 none)
      ((c.values.map srgbTransfer).getD 2 none))) := by
  rw [getLuminance, hd, ok_bind, if_neg hns]
  rfl

theorem srgbTransfer_le (q : ℚ) (h : q / 255 ≤ 0.03928) :
    srgbTransfer (some q) = some ((q / 255 / 12.92 : ℚ) : ℝ) := by
  rw [srgbTransfer]
  rw [if_pos h]

theorem srgbTransfer_gt (q : ℚ) (h : ¬ q / 255 ≤ 0.03928) :
    srgbTransfer (some q) = some ((((q / 255 + 0.055) / 1.055 : ℚ) : ℝ) ^ (2.4 : ℝ)) := by
  rw [srgbTransfer]
  rw [if_neg h]

theorem lumMix_some (x y z : ℝ) :
    lumMix (some x) (some y) (some z) = some (0.2126 * x + 0.7152 * y + 0.0722 * z) := rfl

theorem toFixed3_some (x : ℝ) :
    toFixed3 (some x) = some (((round (x * 1000) : ℤ) : ℝ) / 1000) := rfl

theorem lum_black : getLuminance (.str "rgb(0, 0, 0)") = .ok (some 0) := by
  have hd : decomposeColor (.str "rgb(0, 0, 0)") =
      .ok ⟨"rgb", [some 0, some 0, some 0]⟩ := by decide
  rw [getLuminance_eval _ _ hd (by decide)]
  have ht : srgbTransfer (some 0) = some ((0 / 255 / 12.92 : ℚ) : ℝ) :=
    srgbTransfer_le 0 (by norm_num)
  have ht0 : srgbTransfer (some 0) = some 0 := by
    rw [ht]
    norm_num
  simp only [List.map_cons, List.map_nil, ht0, List.getD_cons_zero, List.getD_cons_succ,
    lumMix_some, toFixed3_some]
  norm_num

theorem lum_white : getLuminance (.str "rgb(255, 255, 255)") = .ok (some 1) := by
  have hd : decomposeColor (.str "rgb(255, 255, 255)") =
      .ok ⟨"rgb", [some 255, some 255, some 255]⟩ := by decide
  rw [getLuminance_eval _ _ hd (by decide)]
  have ht : srgbTransfer (some 255) = some 1 := by
    rw [srgbTransfer_gt 255 (by norm_num)]
    have h1 : ((255 / 255 + 0.055) / 1.055 : ℚ) = 1 := by norm_num
    rw [h1]
    norm_num [Real.one_rpow]
  simp only [List.map_cons, List.map_nil, ht, List.getD_cons_zero, List.getD_cons_succ,
    lumMix_some, toFixed3_some]
  have h2 : ((0.2126 : ℝ) * 1 + 0.7152 * 1 + 0.0722 * 1) * 1000 = ((1000 : ℤ) : ℝ) := by
    norm_num
  rw [h2, round_intCast]
  norm_num

theorem contrastOf_comm (x y : Option ℝ) : contrastOf x y = contrastOf y x := by
  cases x with
  | none => cases y <;> rfl
  | some xa =>
    cases y with
    | none => rfl
    | some yb =>
      show (if min xa yb + 0.05 = 0 then none
          else some ((max xa yb + 0.05) / (min xa yb + 0.05))) =
        (if min yb xa + 0.05 = 0 then none
          else some ((max yb xa + 0.05) / (min yb xa + 0.05)))
      by_cases hc : min xa yb + 0.05 = 0
      · rw [if_pos hc, if_pos (by rwa [min_comm])]
      · rw [if_neg hc, if_neg (by rwa [min_comm]), min_comm yb xa, max_comm yb xa]

/-! ## Claim C9: contrast ratio symmetry -/

/-- Claim C9: the contrast ratio is symmetric — whenever
`contrastRatio(a, b)` returns a value, `contrastRatio(b, a)` returns the same
value. -/
theorem c9_contrast_symm (a b : String) (r : Option ℝ)
    (h : getContrastRatio a b = .ok r) : getContrastRatio b a = .ok r := by
  rw [getContrastRatio] at h ⊢
  cases hla : getLuminance (.str a) with
  | error e =>
    simp only [hla, error_bind] at h
    exact absurd h (by simp)
  | ok la =>
    cases hlb : getLuminance (.str b) with
    | error e =>
      simp only [hla, hlb, ok_bind, error_bind] at h
      exact absurd h (by simp)
    | ok lb =>
      simp only [hla, hlb, ok_bind] at h ⊢
      rw [contrastOf_comm]
      exact h

/-- Claim C9 witness: contrast of white against black equals the contrast of
black against white, namely 21. -/
theorem c9_contrast_symm_witness :
    getContrastRatio "rgb(255, 255, 255)" "rgb(0, 0, 0)" = .ok (some 21) := by
  apply c9_contrast_symm "rgb(0, 0, 0)" "rgb(255, 255, 255)" (some 21)
  rw [getContrastRatio]
  simp only [lum_black, lum_white, ok_bind]
  have h1 : min (0 : ℝ) 1 = 0 := min_eq_left (by norm_num)
  have h2 : max (0 : ℝ) 1 = 1 := max_eq_right (by norm_num)
  show Except.ok (if min (0 : ℝ) 1 + 0.05 = 0 then none
      else some ((max (0 : ℝ) 1 + 0.05) / (min (0 : ℝ) 1 + 0.05))) = _
  rw [h1, h2, if_neg (by norm_num)]
  norm_num

/-! ## Claim C1: getLuminance does not convert hsla colors -/

/-- Claim C1 (code bug): getLuminance converts through hslToRgb only when the
kind is exactly `hsl`; a color of kind `hsla` has its raw (h, s, l) components
fed to the sRGB transfer function as if they were RGB channels.  At
hsla(0, 5%, 2%, 1): the hslToRgb conversion yields rgba(5, 5, 5, 1), whose
luminance is 0.002, while getLuminance on the hsla color returns 0.001 — so
the luminance of the hsla color is NOT the luminance of its rgb conversion,
contrary to the claim. -/
theorem c1_hsla_luminance_not_converted :
    hslToRgb (.obj ⟨"hsla", [some 0, some 5, some 2, some 1]⟩) =
        .ok "rgba(5, 5, 5, 1)" ∧
      getLuminance (.str "rgba(5, 5, 5, 1)") = .ok (some (2 / 1000)) ∧
      getLuminance (.obj ⟨"hsla", [some 0, some 5, some 2, some 1]⟩) =
        .ok (some (1 / 1000)) := by
  refine ⟨by decide, ?_, ?_⟩
  · have hd : decomposeColor (.str "rgba(5, 5, 5, 1)") =
        .ok ⟨"rgba", [some 5, some 5, some 5, some 1]⟩ := by decide
    rw [getLuminance_eval _ _ hd (by decide)]
    have ht5 : srgbTransfer (some 5) = some ((25 : ℝ) / 16473) := by
      rw [srgbTransfer_le 5 (by norm_num),
        show (5 / 255 / 12.92 : ℚ) = 25 / 16473 by norm_num]
      push_cast
      norm_num
    simp only [List.map_cons, List.map_nil, ht5, List.getD_cons_zero,
      List.getD_cons_succ, lumMix_some, toFixed3_some]
    have hsum : ((0.2126 : ℝ) * (25 / 16473) + 0.7152 * (25 / 16473) +
        0.0722 * (25 / 16473)) * 1000 = 25000 / 16473 := by norm_num
    rw [hsum]
    have hround : round ((25000 : ℝ) / 16473) = 2 := by
      rw [round_eq, show ((25000 : ℝ) / 16473 + 1 / 2) = 66473 / 32946 by norm_num]
      apply Int.floor_eq_iff.mpr
      constructor <;> norm_num
    rw [hround]
    norm_num
  · have hd : decomposeColor (.obj ⟨"hsla", [some 0, some 5, some 2, some 1]⟩) =
        .ok ⟨"hsla", [some 0, some 5, some 2, some 1]⟩ := rfl
    rw [getLuminance_eval _ _ hd (by decide)]
    have ht0 : srgbTransfer (some 0) = some 0 := by
      rw [srgbTransfer_le 0 (by norm_num)]
      norm_num
    have ht5 : srgbTransfer (some 5) = some ((25 : ℝ) / 16473) := by
      rw [srgbTransfer_le 5 (by norm_num),
        show (5 / 255 / 12.92 : ℚ) = 25 / 16473 by norm_num]
      push_cast
      norm_num
    have ht2 : srgbTransfer (some 2) = some ((10 : ℝ) / 16473) := by
      rw [srgbTransfer_le 2 (by norm_num),
        show (2 / 255 / 12.92 : ℚ) = 10 / 16473 by norm_num]
      push_cast
      norm_num
    simp only [List.map_cons, List.map_nil, ht0, ht5, ht2, List.getD_cons_zero,
      List.getD_cons_succ, lumMix_some, toFixed3_some]
    have hsum : ((0.2126 : ℝ) * 0 + 0.7152 * (25 / 16473) +
        0.0722 * (10 / 16473)) * 1000 = 18602 / 16473 := by norm_num
    rw [hsum]
    have hround : round ((18602 : ℝ) / 16473) = 1 := by
      rw [round_eq, show ((18602 : ℝ) / 16473 + 1 / 2) = 53677 / 32946 by norm_num]
      apply Int.floor_eq_iff.mpr
      constructor <;> norm_num
    rw [hround]
    norm_num

/-! ## Digit strings: rendering and parsing facts -/

theorem char_eq_of_toNat {c d : Char} (h : c.toNat = d.toNat) : c = d :=
  Char.ext (UInt32.toNat.inj h)

theorem isDigitC_iff (c : Char) : isDigitC c = true ↔ 48 ≤ c.toNat ∧ c.toNat ≤ 57 := by
  rw [isDigitC, decide_eq_true_eq]
  exact Iff.rfl

theorem isWs_iff (c : Char) :
    isWs c = true ↔ c.toNat = 32 ∨ c.toNat = 9 ∨ c.toNat = 10 ∨ c.toNat = 13 := by
  rw [isWs, decide_eq_true_eq]
  constructor
  · rintro (rfl | rfl | rfl | rfl)
    · exact Or.inl rfl
    · exact Or.inr (Or.inl rfl)
    · exact Or.inr (Or.inr (Or.inl rfl))
    · exact Or.inr (Or.inr (Or.inr rfl))
  · rintro (h | h | h | h)
    · exact Or.inl (char_eq_of_toNat h)
    · exact Or.inr (Or.inl (char_eq_of_toNat h))
    · exact Or.inr (Or.inr (Or.inl (char_eq_of_toNat h)))
    · exact Or.inr (Or.inr (Or.inr (char_eq_of_toNat h)))

theorem digit_not_ws {c : Char} (h : isDigitC c = true) : isWs c = false := by
  have h1 := (isDigitC_iff c).mp h
  by_contra hws
  rw [Bool.not_eq_false] at hws
  have h2 := (isWs_iff c).mp hws
  omega

theorem digit_ne_of_toNat {c : Char} (h : isDigitC c = true) (d : Char)
    (hd : d.toNat < 48 ∨ 57 < d.toNat) : c ≠ d := by
  intro heq
  subst heq
  have := (isDigitC_iff c).mp h
  omega

theorem digit_ne_minus {c : Char} (h : isDigitC c = true) : c ≠ '-' :=
  digit_ne_of_toNat h '-' (by decide)

theorem digit_ne_plus {c : Char} (h : isDigitC c = true) : c ≠ '+' :=
  digit_ne_of_toNat h '+' (by decide)

theorem digit_ne_dot {c : Char} (h : isDigitC c = true) : c ≠ '.' :=
  digit_ne_of_toNat h '.' (by decide)

theorem digit_ne_comma {c : Char} (h : isDigitC c = true) : c ≠ ',' :=
  digit_ne_of_toNat h ',' (by decide)

theorem digit_ne_paren {c : Char} (h : isDigitC c = true) : c ≠ '(' :=
  digit_ne_of_toNat h '(' (by decide)

theorem dChar_digit (d : ℕ) (h : d < 10) :
    isDigitC (dChar d) = true ∧ (dChar d).toNat - 48 = d := by
  interval_cases d <;> exact ⟨by decide, by decide⟩

theorem digitsToNat_append_one (l : List Char) (c : Char) :
    digitsToNat (l ++ [c]) = 10 * digitsToNat l + (c.toNat - 48) := by
  rw [digitsToNat, digitsToNat, List.foldl_append]
  rfl

theorem ntd_spec (fuel : ℕ) : ∀ n, n < fuel →
    ntd fuel n ≠ [] ∧ (∀ c ∈ ntd fuel n, isDigitC c = true) ∧
    digitsToNat (ntd fuel n) = n := by
  induction fuel with
  | zero => intro n hn; omega
  | succ f ih =>
    intro n hn
    rw [ntd]
    by_cases h10 : n < 10
    · rw [if_pos h10]
      obtain ⟨hd1, hd2⟩ := dChar_digit n h10
      refine ⟨by simp, by simpa using hd1, ?_⟩
      show digitsToNat [dChar n] = n
      rw [show ([dChar n] : List Char) = [] ++ [dChar n] by simp, digitsToNat_append_one]
      rw [hd2]
      simp [digitsToNat]
    · rw [if_neg h10]
      have hrec : n / 10 < f := by omega
      obtain ⟨h1, h2, h3⟩ := ih (n / 10) hrec
      obtain ⟨hm1, hm2⟩ := dChar_digit (n % 10) (Nat.mod_lt n (by omega))
      refine ⟨by simp, ?_, ?_⟩
      · intro c hc
        rcases List.mem_append.mp hc with hc | hc
        · exact h2 c hc
        · rw [List.mem_singleton.mp hc]
          exact hm1
      · rw [digitsToNat_append_one, h3, hm2]
        omega

theorem natToDec_spec (n : ℕ) :
    natToDec n ≠ [] ∧ (∀ c ∈ natToDec n, isDigitC c = true) ∧
    digitsToNat (natToDec n) = n :=
  ntd_spec (n + 1) n (by omega)

theorem ntd_length (fuel : ℕ) : ∀ n k, n < fuel → n < 10 ^ k → 1 ≤ k →
    (ntd fuel n).length ≤ k := by
  induction fuel with
  | zero => intro n k hn; omega
  | succ f ih =>
    intro n k hn hk hk1
    rw [ntd]
    by_cases h10 : n < 10
    · rw [if_pos h10]
      simpa using hk1
    · rw [if_neg h10]
      have hk2 : 2 ≤ k := by
        by_contra hlt
        have : k = 1 := by omega
        subst this
        simp at hk
        omega
      have hdiv : n / 10 < 10 ^ (k - 1) := by
        rw [Nat.div_lt_iff_lt_mul (by omega)]
        calc n < 10 ^ k := hk
        _ = 10 ^ (k - 1) * 10 := by
          rw [← pow_succ]
          congr 1
          omega
      have := ih (n / 10) (k - 1) (by omega) hdiv (by omega)
      rw [List.length_append]
      simp only [List.length_singleton]
      omega

theorem natToDec_length (n k : ℕ) (hk : n < 10 ^ k) (hk1 : 1 ≤ k) :
    (natToDec n).length ≤ k :=
  ntd_length (n + 1) n k (by omega) hk hk1

theorem digitsToNat_leading_zeros (z : ℕ) (l : List Char) :
    digitsToNat (List.replicate z '0' ++ l) = digitsToNat l := by
  induction z with
  | zero => rfl
  | succ z ih =>
    rw [List.replicate_succ, List.cons_append]
    show digitsToNat (List.replicate z '0' ++ l) = _
    exact ih

/-! ## parseFloat / parseInt on rendered digit strings -/

theorem takeWhile_digits (ds rest : List Char) (hdig : ∀ c ∈ ds, isDigitC c = true)
    (hrest : ∀ c, rest.head? = some c → isDigitC c = false) :
    (ds ++ rest).takeWhile isDigitC = ds ∧ (ds ++ rest).dropWhile isDigitC = rest := by
  induction ds with
  | nil =>
    simp only [List.nil_append]
    cases rest with
    | nil => exact ⟨rfl, rfl⟩
    | cons c r =>
      have hc := hrest c rfl
      rw [List.takeWhile_cons, List.dropWhile_cons]
      simp [hc]
  | cons c ds ih =>
    have hc := hdig c (List.mem_cons_self _ _)
    obtain ⟨h1, h2⟩ := ih (fun x hx => hdig x (List.mem_cons_of_mem _ hx))
    rw [List.cons_append, List.takeWhile_cons, List.dropWhile_cons]
    simp only [hc, if_true]
    exact ⟨by rw [h1], h2⟩

theorem dropWhile_ws_digit (c : Char) (r : List Char) (hc : isDigitC c = true) :
    (c :: r).dropWhile isWs = c :: r := by
  rw [List.dropWhile_cons, digit_not_ws hc]
  simp

theorem parseSign_digit (c : Char) (r : List Char) (hc : isDigitC c = true) :
    parseSign (c :: r) = (1, c :: r) := by
  rw [parseSign, if_neg (digit_ne_minus hc), if_neg (digit_ne_plus hc)]

theorem parseFloat_all_digits (ds rest : List Char) (hne : ds ≠ [])
    (hdig : ∀ c ∈ ds, isDigitC c = true)
    (hrest : ∀ c, rest.head? = some c → isDigitC c = false ∧ c ≠ '.') :
    parseFloatData (ds ++ rest) = some ((digitsToNat ds : ℕ) : ℚ) := by
  obtain ⟨c0, ds0, rfl⟩ := List.exists_cons_of_ne_nil hne
  have hc0 := hdig c0 (List.mem_cons_self _ _)
  obtain ⟨htk, hdr⟩ := takeWhile_digits (c0 :: ds0) rest hdig
    (fun c hc => (hrest c hc).1)
  simp only [parseFloatData, List.cons_append]
  rw [dropWhile_ws_digit _ _ hc0, parseSign_digit _ _ hc0]
  simp only [← List.cons_append, htk, hdr]
  cases rest with
  | nil =>
    simp only [List.takeWhile_nil]
    rw [if_neg (by simp)]
    rw [qMul_eq, qAdd_eq, qDiv_eq]
    norm_num
    rfl
  | cons c r =>
    have hdot := (hrest c rfl).2
    simp only []
    rw [if_neg hdot, if_neg (by simp)]
    rw [qMul_eq, qAdd_eq, qDiv_eq]
    norm_num
    rfl

theorem parseIntDec_digits (ds : List Char) (hne : ds ≠ [])
    (hdig : ∀ c ∈ ds, isDigitC c = true) :
    parseIntDec ds = some ((digitsToNat ds : ℕ) : ℚ) := by
  obtain ⟨c0, ds0, rfl⟩ := List.exists_cons_of_ne_nil hne
  have hc0 := hdig c0 (List.mem_cons_self _ _)
  obtain ⟨htk, _⟩ := takeWhile_digits (c0 :: ds0) [] hdig (by simp)
  rw [List.append_nil] at htk
  simp only [parseIntDec]
  rw [dropWhile_ws_digit _ _ hc0, parseSign_digit _ _ hc0]
  simp only [htk]
  rw [if_neg (by simp)]
  rw [qMul_eq]
  norm_num

theorem parseFloat_ws_cons (x : List Char) :
    parseFloatData (' ' :: x) = parseFloatData x := by
  simp only [parseFloatData]
  rw [List.dropWhile_cons, if_pos (by decide : isWs ' ' = true)]

/-! ## The decimal printer and its parse-back -/

theorem qToDecData_eq (q : ℚ) :
    qToDecData q =
      (if decExp q.den = 0 then
        natToDec ((qMul q ((10 ^ decExp q.den : ℕ) : ℚ)).num.toNat)
      else
        natToDec ((qMul q ((10 ^ decExp q.den : ℕ) : ℚ)).num.toNat / 10 ^ decExp q.den) ++
          '.' :: padZeros (decExp q.den)
            (natToDec ((qMul q ((10 ^ decExp q.den : ℕ) : ℚ)).num.toNat % 10 ^ decExp q.den))) :=
  rfl

theorem isDecB_den_dvd (q : ℚ) (hdec : IsDecB q = true) :
    q.den ∣ 10 ^ decExp q.den := by
  rw [IsDecB, decide_eq_true_eq] at hdec
  rw [decExp]
  conv_lhs => rw [hdec]
  rw [show (10 : ℕ) = 2 * 5 from rfl, mul_pow]
  exact mul_dvd_mul (pow_dvd_pow 2 (le_max_left _ _)) (pow_dvd_pow 5 (le_max_right _ _))

theorem decimal_scaled (q : ℚ) (hq : 0 ≤ q) (hdec : IsDecB q = true) :
    (((qMul q ((10 ^ decExp q.den : ℕ) : ℚ)).num.toNat : ℕ) : ℚ) =
      q * ((10 ^ decExp q.den : ℕ) : ℚ) := by
  obtain ⟨t, ht⟩ := isDecB_den_dvd q hdec
  have hden := den_cast_ne q
  have hqden : q * ((q.den : ℕ) : ℚ) = ((q.num : ℤ) : ℚ) := by
    have h1 : ((q.num : ℤ) : ℚ) / ((q.den : ℕ) : ℚ) * ((q.den : ℕ) : ℚ) =
        q * ((q.den : ℕ) : ℚ) := by rw [Rat.num_div_den q]
    rw [div_mul_cancel₀ _ (den_cast_ne q)] at h1
    exact h1.symm
  have hqt : q * ((10 ^ decExp q.den : ℕ) : ℚ) = ((q.num * (t : ℤ) : ℤ) : ℚ) := by
    rw [ht]
    calc q * ((q.den * t : ℕ) : ℚ) = q * ((q.den : ℕ) : ℚ) * ((t : ℕ) : ℚ) := by
          push_cast
          ring
    _ = ((q.num : ℤ) : ℚ) * ((t : ℕ) : ℚ) := by rw [hqden]
    _ = ((q.num * (t : ℤ) : ℤ) : ℚ) := by
          push_cast
          ring
  have hnn : 0 ≤ q.num * (t : ℤ) := mul_nonneg (Rat.num_nonneg.mpr hq) (by positivity)
  rw [qMul_eq, hqt, Rat.num_intCast, ← Int.cast_natCast, Int.toNat_of_nonneg hnn]

theorem padZeros_digits (k : ℕ) (l : List Char) (h : ∀ c ∈ l, isDigitC c = true) :
    ∀ c ∈ padZeros k l, isDigitC c = true := by
  intro c hc
  rcases List.mem_append.mp hc with hc | hc
  · rw [List.eq_of_mem_replicate hc]
    decide
  · exact h c hc

theorem padZeros_length (k : ℕ) (l : List Char) (h : l.length ≤ k) :
    (padZeros k l).length = k := by
  rw [padZeros, List.length_append, List.length_replicate]
  omega

theorem parseFloat_numToStr (q : ℚ) (hq : 0 ≤ q) (hdec : IsDecB q = true)
    (rest : List Char)
    (hrest : ∀ c, rest.head? = some c → isDigitC c = false ∧ c ≠ '.') :
    parseFloatData (numToStrData q ++ rest) = some q := by
  have hmq := decimal_scaled q hq hdec
  rw [numToStrData, if_neg (not_lt.mpr hq), qToDecData_eq]
  by_cases hk0 : decExp q.den = 0
  · rw [if_pos hk0]
    obtain ⟨hne, hdig, hval⟩ := natToDec_spec ((qMul q ((10 ^ decExp q.den : ℕ) : ℚ)).num.toNat)
    rw [parseFloat_all_digits _ rest hne hdig hrest, hval]
    congr 1
    rw [hmq, hk0]
    norm_num
  · rw [if_neg hk0]
    set k := decExp q.den with hkdef
    set m := (qMul q ((10 ^ k : ℕ) : ℚ)).num.toNat with hmdef
    have hk1 : 1 ≤ k := by omega
    obtain ⟨hAne, hAdig, hAval⟩ := natToDec_spec (m / 10 ^ k)
    obtain ⟨hFne, hFdig, hFval⟩ := natToDec_spec (m % 10 ^ k)
    set A := natToDec (m / 10 ^ k)
    set P := padZeros k (natToDec (m % 10 ^ k)) with hPdef
    have hPdig : ∀ c ∈ P, isDigitC c = true := padZeros_digits _ _ hFdig
    have hPlen : P.length = k :=
      padZeros_length _ _ (natToDec_length _ _ (Nat.mod_lt m (by positivity)) hk1)
    have hPval : digitsToNat P = m % 10 ^ k := by
      rw [hPdef, padZeros, digitsToNat_leading_zeros, hFval]
    obtain ⟨a0, A0, hA⟩ := List.exists_cons_of_ne_nil hAne
    have hassoc : (A ++ '.' :: P) ++ rest = A ++ ('.' :: (P ++ rest)) := by
      rw [List.append_assoc]
      rfl
    rw [hassoc]
    obtain ⟨htk, hdr⟩ := takeWhile_digits A ('.' :: (P ++ rest)) hAdig
      (fun c hc => by
        rw [← Option.some_inj.mp hc]
        decide)
    obtain ⟨hPtk, _⟩ := takeWhile_digits P rest hPdig (fun c hc => (hrest c hc).1)
    have hc0 : isDigitC a0 = true := hAdig a0 (by rw [hA]; exact List.mem_cons_self _ _)
    simp only [parseFloatData]
    rw [hA, List.cons_append, dropWhile_ws_digit _ _ hc0, parseSign_digit _ _ hc0,
      ← List.cons_append, ← hA]
    simp only [htk, hdr]
    simp only [if_true, hPtk]
    rw [if_neg (by simp [hA])]
    rw [qMul_eq, qAdd_eq, qDiv_eq, hAval, hPval, hPlen]
    congr 1
    have hN : ((10 ^ k : ℕ) : ℚ) ≠ 0 := by positivity
    have hmq2 : (m : ℚ) = q * (10 : ℚ) ^ k := by
      rw [hmq]
      push_cast
      ring
    rw [one_mul]
    field_simp
    rw [← hmq2]
    have hdm : m / 10 ^ k * 10 ^ k + m % 10 ^ k = m := by
      rw [Nat.mul_comm]
      exact Nat.div_add_mod m (10 ^ k)
    exact_mod_cast congrArg (Nat.cast : ℕ → ℚ) hdm

/-! ## Character sets of printed numbers -/

theorem numToStr_chars (q : ℚ) (hq : 0 ≤ q) :
    ∀ c ∈ numToStrData q, isDigitC c = true ∨ c = '.' := by
  rw [numToStrData, if_neg (not_lt.mpr hq), qToDecData_eq]
  by_cases hk : decExp q.den = 0
  · rw [if_pos hk]
    intro c hc
    exact Or.inl ((natToDec_spec _).2.1 c hc)
  · rw [if_neg hk]
    intro c hc
    rcases List.mem_append.mp hc with hc | hc
    · exact Or.inl ((natToDec_spec _).2.1 c hc)
    · rcases List.mem_cons.mp hc with rfl | hc
      · exact Or.inr rfl
      · exact Or.inl (padZeros_digits _ _ (natToDec_spec _).2.1 c hc)

theorem numToStr_no_comma (q : ℚ) (hq : 0 ≤ q) : ',' ∉ numToStrData q := by
  intro hc
  rcases numToStr_chars q hq ',' hc with h | h
  · exact absurd h (by decide)
  · exact absurd h (by decide)

theorem numToStr_no_paren (q : ℚ) (hq : 0 ≤ q) : '(' ∉ numToStrData q := by
  intro hc
  rcases numToStr_chars q hq '(' hc with h | h
  · exact absurd h (by decide)
  · exact absurd h (by decide)

/-! ## splitComma, indexOf and join on assembled bodies -/

theorem splitComma_ne_nil (l : List Char) : splitComma l ≠ [] := by
  cases l with
  | nil => simp [splitComma]
  | cons c r =>
    rw [splitComma]
    cases splitComma r with
    | nil => simp
    | cons h t =>
      by_cases hc : c = ','
      · simp [hc]
      · simp [hc]

theorem splitComma_no_comma (l : List Char) (h : ',' ∉ l) : splitComma l = [l] := by
  induction l with
  | nil => rfl
  | cons c r ih =>
    rw [splitComma, ih (fun hm => h (List.mem_cons_of_mem c hm))]
    simp only []
    rw [if_neg (fun hh : c = ',' => h (hh ▸ List.mem_cons_self c r))]

theorem splitComma_append (p x : List Char) (hp : ',' ∉ p) :
    splitComma (p ++ ',' :: x) = p :: splitComma x := by
  induction p with
  | nil =>
    rw [List.nil_append, splitComma]
    cases heq : splitComma x with
    | nil => exact absurd heq (splitComma_ne_nil x)
    | cons h t =>
      simp
  | cons c p ih =>
    rw [List.cons_append, splitComma, ih (fun hm => hp (List.mem_cons_of_mem c hm))]
    simp only []
    rw [if_neg (fun hh : c = ',' => hp (hh ▸ List.mem_cons_self c p))]

theorem splitComma_interComma (rest : List (List Char)) :
    ∀ (p : List Char), ',' ∉ p → (∀ x ∈ rest, ',' ∉ x) →
      splitComma (interComma (p :: rest)) = p :: rest.map (fun x => ' ' :: x) := by
  induction rest with
  | nil =>
    intro p hp _
    rw [show interComma [p] = p from rfl, splitComma_no_comma p hp]
    rfl
  | cons q r ih =>
    intro p hp hrest
    have h2 := ih q (hrest q (List.mem_cons_self _ _))
      (fun x hx => hrest x (List.mem_cons_of_mem _ hx))
    rw [interComma, splitComma_append p _ hp, splitComma, h2]
    simp only []
    rw [if_neg (by decide : ¬ (' ' = ','))]
    rfl

theorem take_drop_mid (pre mid post : List Char) :
    ((pre ++ mid ++ post).take (pre.length + mid.length)).drop pre.length = mid := by
  have h1 : (pre ++ mid ++ post).take (pre.length + mid.length) = pre ++ mid := by
    rw [show pre.length + mid.length = (pre ++ mid).length from (List.length_append pre mid).symm]
    exact List.take_left (pre ++ mid) post
  rw [h1, List.drop_left]

theorem substringJs_mid (pre mid post : List Char) (a b : ℤ)
    (ha : a = (pre.length : ℤ)) (hb : b = (pre.length : ℤ) + (mid.length : ℤ)) :
    substringJs (pre ++ mid ++ post) a b = mid := by
  subst ha
  subst hb
  have e1 : ((pre.length : ℤ) + (mid.length : ℤ)) = ((pre.length + mid.length : ℕ) : ℤ) := by
    push_cast
    ring
  rw [e1, substringJs_nat _ _ _ (by simp [List.length_append]) (Nat.le_add_right _ _)]
  exact take_drop_mid pre mid post

theorem findIdx_append_paren (pre rest : List Char) (h : '(' ∉ pre) :
    List.findIdx? (· == '(') (pre ++ '(' :: rest) = some pre.length := by
  induction pre with
  | nil =>
    rw [List.nil_append, List.findIdx?_cons]
    simp
  | cons c p ih =>
    rw [List.cons_append, List.findIdx?_cons]
    have hc : ¬ ((c == '(') = true) := by
      simp only [beq_iff_eq]
      exact fun hh => h (hh ▸ List.mem_cons_self c p)
    rw [if_neg hc, List.findIdx?_succ, ih (fun hm => h (List.mem_cons_of_mem c hm))]
    rfl

theorem interComma_not_mem (d : Char) (hd1 : d ≠ ',') (hd2 : d ≠ ' ') :
    ∀ (ps : List (List Char)), (∀ p ∈ ps, d ∉ p) → d ∉ interComma ps := by
  intro ps
  induction ps with
  | nil => intro _ hm; simp [interComma] at hm
  | cons p rest ih =>
    intro h hm
    cases rest with
    | nil => exact h p (List.mem_cons_self _ _) (by simpa [interComma] using hm)
    | cons q r =>
      rw [interComma] at hm
      rcases List.mem_append.mp hm with hm | hm
      · exact h p (List.mem_cons_self _ _) hm
      · rcases List.mem_cons.mp hm with rfl | hm
        · exact hd1 rfl
        · rcases List.mem_cons.mp hm with rfl | hm
          · exact hd2 rfl
          · exact ih (fun x hx => h x (List.mem_cons_of_mem _ hx)) hm

theorem head_append_ne_hash (c : Char) (hc : c ≠ '#') (l r : List Char) :
    ((c :: l) ++ r).head? ≠ some '#' := by
  simp [hc]

/-- Parsing back a well-formed assembled `kind(entry, entry, ...)` string:
when the kind is recognized and no entry contains a comma or a parenthesis,
the string-arm parser recovers the kind and applies `parseFloat` to each
entry. -/
theorem decomposeStr_assembled (t : String) (p : List Char) (rest : List (List Char))
    (ht : isColorType t = true)
    (hch : ∀ x ∈ p :: rest, ',' ∉ x ∧ '(' ∉ x) :
    decomposeStr 2 (String.mk (t.data ++ '(' :: interComma (p :: rest) ++ [')'])) =
      .ok ⟨t, (p :: rest).map parseFloatData⟩ := by
  have ht4 : t = "rgb" ∨ t = "rgba" ∨ t = "hsl" ∨ t = "hsla" := by
    rw [isColorType, decide_eq_true_eq] at ht
    exact ht
  have hparen_t : '(' ∉ t.data := by
    rcases ht4 with rfl | rfl | rfl | rfl <;> decide
  have hhash : (t.data ++ '(' :: interComma (p :: rest) ++ [')']).head? ≠ some '#' := by
    rcases ht4 with rfl | rfl | rfl | rfl
    · exact head_append_ne_hash 'r' (by decide) _ _
    · exact head_append_ne_hash 'r' (by decide) _ _
    · exact head_append_ne_hash 'h' (by decide) _ _
    · exact head_append_ne_hash 'h' (by decide) _ _
  have hshape : (t.data ++ '(' :: interComma (p :: rest) ++ [')'] : List Char) =
      t.data ++ '(' :: (interComma (p :: rest) ++ [')']) := by
    rw [List.append_assoc, List.cons_append]
  have hmark : indexOfChar '(' (t.data ++ '(' :: interComma (p :: rest) ++ [')']) =
      (t.data.length : ℤ) := by
    rw [hshape, indexOfChar, findIdx_append_paren t.data _ hparen_t]
  have hsub0 : substringJs (t.data ++ '(' :: interComma (p :: rest) ++ [')'])
      0 (t.data.length : ℤ) = t.data := by
    rw [substringJs_zero _ t.data.length (by simp [List.length_append]), hshape,
      List.take_left]
  have hshape2 : (t.data ++ '(' :: interComma (p :: rest) ++ [')'] : List Char) =
      (t.data ++ ['(']) ++ interComma (p :: rest) ++ [')'] := by
    simp
  have hsub1 : substringJs (t.data ++ '(' :: interComma (p :: rest) ++ [')'])
      ((t.data.length : ℤ) + 1)
      (((t.data ++ '(' :: interComma (p :: rest) ++ [')']).length : ℤ) - 1) =
      interComma (p :: rest) := by
    rw [hshape2]
    refine substringJs_mid (t.data ++ ['(']) (interComma (p :: rest)) [')'] _ _ ?_ ?_
    · simp
    · simp only [List.length_append, List.length_cons, List.length_nil]
      push_cast
      ring
  have hsplit : splitComma (interComma (p :: rest)) =
      p :: rest.map (fun x => ' ' :: x) :=
    splitComma_interComma rest p (hch p (List.mem_cons_self _ _)).1
      (fun x hx => (hch x (List.mem_cons_of_mem _ hx)).1)
  have hmaps : (rest.map (fun x => ' ' :: x)).map parseFloatData =
      rest.map parseFloatData := by
    simp only [List.map_map, Function.comp]
    exact List.map_congr_left (fun x _ => parseFloat_ws_cons x)
  show decomposeStr (1 + 1) _ = _
  rw [decomposeStr, if_neg hhash]
  simp only []
  rw [hmark, hsub0, hsub1, if_pos ht, hsplit]
  rw [List.map_cons, hmaps, List.map_cons]

/-! ## Claim C2: decompose after recompose -/

theorem list_len_four {α : Type} (l : List α) (h : l.length = 4) :
    ∃ a b c d, l = [a, b, c, d] := by
  cases l with
  | nil => simp at h
  | cons a t =>
    have ht : t.length = 3 := by
      simp only [List.length_cons] at h
      omega
    obtain ⟨b, c, d, rfl⟩ := List.length_eq_three.mp ht
    exact ⟨a, b, c, d, rfl⟩

theorem rat_eq_natCast (a : ℚ) (hden : a.den = 1) (hnn : 0 ≤ a) :
    a = ((a.num.toNat : ℕ) : ℚ) := by
  have h1 : ((a.num.toNat : ℕ) : ℤ) = a.num := Int.toNat_of_nonneg (Rat.num_nonneg.mpr hnn)
  have h2 : a = ((a.num : ℤ) : ℚ) := by
    conv_lhs => rw [← Rat.num_div_den a]
    rw [hden]
    norm_num
  rw [h2]
  exact_mod_cast congrArg (Int.cast : ℤ → ℚ) h1.symm

theorem numToStr_natCast (n : ℕ) : numToStrData ((n : ℚ)) = natToDec n := by
  rw [numToStrData, if_neg (not_lt.mpr (by positivity)), qToDecData_eq]
  have hden : ((n : ℚ)).den = 1 := Rat.den_natCast n
  rw [hden, show decExp 1 = 0 from rfl, if_pos rfl]
  congr 1
  rw [qMul_eq]
  norm_num

theorem parseIntDec_natToDec (n : ℕ) : parseIntDec (natToDec n) = some ((n : ℚ)) := by
  obtain ⟨hne, hdig, hval⟩ := natToDec_spec n
  rw [parseIntDec_digits _ hne hdig, hval]

theorem parseFloat_natToDec (n : ℕ) : parseFloatData (natToDec n) = some ((n : ℚ)) := by
  obtain ⟨hne, hdig, hval⟩ := natToDec_spec n
  have h := parseFloat_all_digits (natToDec n) [] hne hdig (by simp)
  rw [List.append_nil] at h
  rw [h, hval]

theorem rgb_entry_int (n : ℕ) :
    jsNumToString (parseIntDec (jsNumToString (some ((n : ℚ))))) = natToDec n := by
  rw [jsNumToString, numToStr_natCast, parseIntDec_natToDec, jsNumToString, numToStr_natCast]

theorem natToDec_entry_ok (n : ℕ) : ',' ∉ natToDec n ∧ '(' ∉ natToDec n := by
  obtain ⟨_, hdig, _⟩ := natToDec_spec n
  constructor <;> intro hm
  · exact absurd (hdig ',' hm) (by decide)
  · exact absurd (hdig '(' hm) (by decide)

theorem numToStr_entry_ok (q : ℚ) (hq : 0 ≤ q) :
    ',' ∉ numToStrData q ∧ '(' ∉ numToStrData q :=
  ⟨numToStr_no_comma q hq, numToStr_no_paren q hq⟩

theorem pct_entry_ok (q : ℚ) (hq : 0 ≤ q) :
    ',' ∉ numToStrData q ++ ['%'] ∧ '(' ∉ numToStrData q ++ ['%'] := by
  constructor <;> intro hm <;> rcases List.mem_append.mp hm with hm | hm
  · exact numToStr_no_comma q hq hm
  · simp at hm
  · exact numToStr_no_paren q hq hm
  · simp at hm

theorem parseFloat_plain (q : ℚ) (hq : 0 ≤ q) (hdec : IsDecB q = true) :
    parseFloatData (numToStrData q) = some q := by
  have h := parseFloat_numToStr q hq hdec [] (by simp)
  rwa [List.append_nil] at h

theorem parseFloat_pct (q : ℚ) (hq : 0 ≤ q) (hdec : IsDecB q = true) :
    parseFloatData (numToStrData q ++ ['%']) = some q := by
  refine parseFloat_numToStr q hq hdec ['%'] ?_
  intro c hc
  simp only [List.head?_cons, Option.some.injEq] at hc
  subst hc
  exact ⟨by decide, by decide⟩

theorem rgbEntries_three (a b c : JsNum) :
    rgbEntries 0 [a, b, c] =
      [jsNumToString (parseIntDec (jsNumToString a)),
       jsNumToString (parseIntDec (jsNumToString b)),
       jsNumToString (parseIntDec (jsNumToString c))] := rfl

theorem rgbEntries_four (a b c d : JsNum) :
    rgbEntries 0 [a, b, c, d] =
      [jsNumToString (parseIntDec (jsNumToString a)),
       jsNumToString (parseIntDec (jsNumToString b)),
       jsNumToString (parseIntDec (jsNumToString c)),
       jsNumToString d] := rfl

theorem hslEntries_three (a b c : JsNum) :
    hslEntries 0 [a, b, c] =
      [jsNumToString a, jsNumToString b ++ ['%'], jsNumToString c ++ ['%']] := rfl

theorem hslEntries_four (a b c d : JsNum) :
    hslEntries 0 [a, b, c, d] =
      [jsNumToString a, jsNumToString b ++ ['%'], jsNumToString c ++ ['%'],
       jsNumToString d] := rfl

/-- Claim C2 (amended): for a canonical color of one of the four kinds whose
components are in the nominal ranges, are terminating decimals (as every
finite JS double is), and — for the rgb kinds, beyond the claim — have
integral channel values in the first three positions, decompose after
recompose is the identity.  The integrality condition is necessary: the
recomposer passes the first three rgb entries through `parseInt`, which
truncates fractional channels (see the counterexample). -/
theorem c2_roundtrip_amended (t : String) (qs : List ℚ)
    (ht : isColorType t = true)
    (hlen : qs.length = if t = "rgb" ∨ t = "hsl" then 3 else 4)
    (hdec : ∀ q ∈ qs, IsDecB q = true)
    (hrange : componentsInRange t qs)
    (hint : (t = "rgb" ∨ t = "rgba") → ∀ q ∈ qs.take 3, q.den = 1) :
    decomposeColor (.str (recomposeColor ⟨t, qs.map some⟩)) = .ok ⟨t, qs.map some⟩ := by
  have ht4 : t = "rgb" ∨ t = "rgba" ∨ t = "hsl" ∨ t = "hsla" := by
    rw [isColorType, decide_eq_true_eq] at ht
    exact ht
  rcases ht4 with rfl | rfl | rfl | rfl
  · rw [if_pos (Or.inl rfl)] at hlen
    obtain ⟨a, b, c, rfl⟩ := List.length_eq_three.mp hlen
    simp only [componentsInRange] at hrange
    rw [if_pos (Or.inl trivial)] at hrange
    have h0a : 0 ≤ a := (hrange.1 a (by simp)).1
    have h0b : 0 ≤ b := (hrange.1 b (by simp)).1
    have h0c : 0 ≤ c := (hrange.1 c (by simp)).1
    have hd := hint (Or.inl rfl)
    have hda : a.den = 1 := hd a (by simp)
    have hdb : b.den = 1 := hd b (by simp)
    have hdc : c.den = 1 := hd c (by simp)
    obtain ⟨na, rfl⟩ : ∃ n : ℕ, a = ((n : ℕ) : ℚ) :=
      ⟨a.num.toNat, rat_eq_natCast a hda h0a⟩
    obtain ⟨nb, rfl⟩ : ∃ n : ℕ, b = ((n : ℕ) : ℚ) :=
      ⟨b.num.toNat, rat_eq_natCast b hdb h0b⟩
    obtain ⟨nc, rfl⟩ : ∃ n : ℕ, c = ((n : ℕ) : ℚ) :=
      ⟨c.num.toNat, rat_eq_natCast c hdc h0c⟩
    simp only [List.map_cons, List.map_nil]
    show decomposeStr 2 (recomposeColor
      ⟨"rgb", [some ((na : ℕ) : ℚ), some ((nb : ℕ) : ℚ), some ((nc : ℕ) : ℚ)]⟩) = _
    have hrec : recomposeColor
        ⟨"rgb", [some ((na : ℕ) : ℚ), some ((nb : ℕ) : ℚ), some ((nc : ℕ) : ℚ)]⟩ =
        String.mk (("rgb" : String).data ++ '(' :: interComma
          (rgbEntries 0 [some ((na : ℕ) : ℚ), some ((nb : ℕ) : ℚ),
            some ((nc : ℕ) : ℚ)]) ++ [')']) := rfl
    rw [hrec, rgbEntries_three, rgb_entry_int, rgb_entry_int, rgb_entry_int]
    have hch : ∀ x ∈ natToDec na :: [natToDec nb, natToDec nc], ',' ∉ x ∧ '(' ∉ x := by
      intro x hx
      rcases List.mem_cons.mp hx with rfl | hx
      · exact natToDec_entry_ok na
      rcases List.mem_cons.mp hx with rfl | hx
      · exact natToDec_entry_ok nb
      rcases List.mem_cons.mp hx with rfl | hx
      · exact natToDec_entry_ok nc
      · exact absurd hx (List.not_mem_nil x)
    rw [decomposeStr_assembled "rgb" (natToDec na) [natToDec nb, natToDec nc]
      (by decide) hch]
    simp only [List.map_cons, List.map_nil, parseFloat_natToDec]
  · rw [if_neg (by decide)] at hlen
    obtain ⟨a, b, c, d, rfl⟩ := list_len_four _ hlen
    simp only [componentsInRange] at hrange
    rw [if_pos (Or.inr trivial)] at hrange
    have h0a : 0 ≤ a := (hrange.1 a (by simp)).1
    have h0b : 0 ≤ b := (hrange.1 b (by simp)).1
    have h0c : 0 ≤ c := (hrange.1 c (by simp)).1
    have h0d : 0 ≤ d := (hrange.2 d (by simp)).1
    have hdecd : IsDecB d = true := hdec d (by simp)
    have hd := hint (Or.inr rfl)
    have hda : a.den = 1 := hd a (by simp)
    have hdb : b.den = 1 := hd b (by simp)
    have hdc : c.den = 1 := hd c (by simp)
    obtain ⟨na, rfl⟩ : ∃ n : ℕ, a = ((n : ℕ) : ℚ) :=
      ⟨a.num.toNat, rat_eq_natCast a hda h0a⟩
    obtain ⟨nb, rfl⟩ : ∃ n : ℕ, b = ((n : ℕ) : ℚ) :=
      ⟨b.num.toNat, rat_eq_natCast b hdb h0b⟩
    obtain ⟨nc, rfl⟩ : ∃ n : ℕ, c = ((n : ℕ) : ℚ) :=
      ⟨c.num.toNat, rat_eq_natCast c hdc h0c⟩
    simp only [List.map_cons, List.map_nil]
    show decomposeStr 2 (recomposeColor ⟨"rgba",
      [some ((na : ℕ) : ℚ), some ((nb : ℕ) : ℚ), some ((nc : ℕ) : ℚ), some d]⟩) = _
    have hrec : recomposeColor ⟨"rgba",
        [some ((na : ℕ) : ℚ), some ((nb : ℕ) : ℚ), some ((nc : ℕ) : ℚ), some d]⟩ =
        String.mk (("rgba" : String).data ++ '(' :: interComma
          (rgbEntries 0 [some ((na : ℕ) : ℚ), some ((nb : ℕ) : ℚ), some ((nc : ℕ) : ℚ),
            some d]) ++ [')']) := rfl
    rw [hrec, rgbEntries_four, rgb_entry_int, rgb_entry_int, rgb_entry_int]
    rw [show jsNumToString (some d) = numToStrData d from rfl]
    have hch : ∀ x ∈ natToDec na :: [natToDec nb, natToDec nc, numToStrData d],
        ',' ∉ x ∧ '(' ∉ x := by
      intro x hx
      rcases List.mem_cons.mp hx with rfl | hx
      · exact natToDec_entry_ok na
      rcases List.mem_cons.mp hx with rfl | hx
      · exact natToDec_entry_ok nb
      rcases List.mem_cons.mp hx with rfl | hx
      · exact natToDec_entry_ok nc
      rcases List.mem_cons.mp hx with rfl | hx
      · exact numToStr_entry_ok d h0d
      · exact absurd hx (List.not_mem_nil x)
    rw [decomposeStr_assembled "rgba" (natToDec na)
      [natToDec nb, natToDec nc, numToStrData d] (by decide) hch]
    simp only [List.map_cons, List.map_nil, parseFloat_natToDec]
    rw [parseFloat_plain d h0d hdecd]
  · rw [if_pos (Or.inr rfl)] at hlen
    obtain ⟨x, y, z, rfl⟩ := List.length_eq_three.mp hlen
    simp only [componentsInRange] at hrange
    rw [if_neg (by decide)] at hrange
    have h0x : 0 ≤ x := (hrange.1 x (by simp)).1
    have h0y : 0 ≤ y := (hrange.2.1 y (by simp)).1
    have h0z : 0 ≤ z := (hrange.2.1 z (by simp)).1
    have hdx : IsDecB x = true := hdec x (by simp)
    have hdy : IsDecB y = true := hdec y (by simp)
    have hdz : IsDecB z = true := hdec z (by simp)
    simp only [List.map_cons, List.map_nil]
    show decomposeStr 2 (recomposeColor ⟨"hsl", [some x, some y, some z]⟩) = _
    have hrec : recomposeColor ⟨"hsl", [some x, some y, some z]⟩ =
        String.mk (("hsl" : String).data ++ '(' :: interComma
          (hslEntries 0 [some x, some y, some z]) ++ [')']) := rfl
    rw [hrec, hslEntries_three]
    simp only [jsNumToString]
    have hch : ∀ e ∈ numToStrData x ::
        [numToStrData y ++ ['%'], numToStrData z ++ ['%']], ',' ∉ e ∧ '(' ∉ e := by
      intro e he
      rcases List.mem_cons.mp he with rfl | he
      · exact numToStr_entry_ok x h0x
      rcases List.mem_cons.mp he with rfl | he
      · exact pct_entry_ok y h0y
      rcases List.mem_cons.mp he with rfl | he
      · exact pct_entry_ok z h0z
      · exact absurd he (List.not_mem_nil e)
    rw [decomposeStr_assembled "hsl" (numToStrData x)
      [numToStrData y ++ ['%'], numToStrData z ++ ['%']] (by decide) hch]
    simp only [List.map_cons, List.map_nil]
    rw [parseFloat_plain x h0x hdx, parseFloat_pct y h0y hdy, parseFloat_pct z h0z hdz]
  · rw [if_neg (by decide)] at hlen
    obtain ⟨x, y, z, w, rfl⟩ := list_len_four _ hlen
    simp only [componentsInRange] at hrange
    rw [if_neg (by decide)] at hrange
    have h0x : 0 ≤ x := (hrange.1 x (by simp)).1
    have h0y : 0 ≤ y := (hrange.2.1 y (by simp)).1
    have h0z : 0 ≤ z := (hrange.2.1 z (by simp)).1
    have h0w : 0 ≤ w := (hrange.2.2 w (by simp)).1
    have hdx : IsDecB x = true := hdec x (by simp)
    have hdy : IsDecB y = true := hdec y (by simp)
    have hdz : IsDecB z = true := hdec z (by simp)
    have hdw : IsDecB w = true := hdec w (by simp)
    simp only [List.map_cons, List.map_nil]
    show decomposeStr 2 (recomposeColor ⟨"hsla", [some x, some y, some z, some w]⟩) = _
    have hrec : recomposeColor ⟨"hsla", [some x, some y, some z, some w]⟩ =
        String.mk (("hsla" : String).data ++ '(' :: interComma
          (hslEntries 0 [some x, some y, some z, some w]) ++ [')']) := rfl
    rw [hrec, hslEntries_four]
    simp only [jsNumToString]
    have hch : ∀ e ∈ numToStrData x ::
        [numToStrData y ++ ['%'], numToStrData z ++ ['%'], numToStrData w],
        ',' ∉ e ∧ '(' ∉ e := by
      intro e he
      rcases List.mem_cons.mp he with rfl | he
      · exact numToStr_entry_ok x h0x
      rcases List.mem_cons.mp he with rfl | he
      · exact pct_entry_ok y h0y
      rcases List.mem_cons.mp he with rfl | he
      · exact pct_entry_ok z h0z
      rcases List.mem_cons.mp he with rfl | he
      · exact numToStr_entry_ok w h0w
      · exact absurd he (List.not_mem_nil e)
    rw [decomposeStr_assembled "hsla" (numToStrData x)
      [numToStrData y ++ ['%'], numToStrData z ++ ['%'], numToStrData w]
      (by decide) hch]
    simp only [List.map_cons, List.map_nil]
    rw [parseFloat_plain x h0x hdx, parseFloat_pct y h0y hdy, parseFloat_pct z h0z hdz,
      parseFloat_plain w h0w hdw]

/-- Claim C2 counterexample: rgb(1.5, 2, 3) has all components within the
nominal ranges of section 3, yet the recomposer passes the channels through
`parseInt`, truncating 1.5 to 1, so decompose after recompose returns
rgb(1, 2, 3) — not the original color. -/
theorem c2_counterexample :
    componentsInRange "rgb" [mkRat 3 2, 2, 3] ∧
    decomposeColor (.str (recomposeColor
      ⟨"rgb", [some (mkRat 3 2), some 2, some 3]⟩)) =
      .ok ⟨"rgb", [some 1, some 2, some 3]⟩ ∧
    (⟨"rgb", [some 1, some 2, some 3]⟩ : ColorObject) ≠
      ⟨"rgb", [some (mkRat 3 2), some 2, some 3]⟩ := by
  refine ⟨?_, by decide, by decide⟩
  rw [componentsInRange, if_pos (Or.inl rfl)]
  decide

/-- Claim C2 witness: the amended roundtrip at rgba(1, 2, 3, 0.5), whose
channels are integral and whose alpha is the terminating decimal 0.5. -/
theorem c2_roundtrip_amended_witness :
    decomposeColor (.str (recomposeColor
      ⟨"rgba", ([1, 2, 3, mkRat 1 2] : List ℚ).map some⟩)) =
      .ok ⟨"rgba", ([1, 2, 3, mkRat 1 2] : List ℚ).map some⟩ :=
  c2_roundtrip_amended "rgba" [1, 2, 3, mkRat 1 2] (by decide) (by decide) (by decide)
    (by rw [componentsInRange, if_pos (Or.inr rfl)]; decide) (by decide)

/-! ## Claim C3: hex roundtrip -/

theorem reM_step (fuel : ℕ) (c1 c2 : Char) (r : List Char)
    (h1 : isLineTerm c1 = false) (h2 : isLineTerm c2 = false) :
    reM 2 (fuel + 1) (c1 :: c2 :: r) = [c1, c2] :: reM 2 fuel r := by
  rw [reM, if_neg (by simp [h1])]
  simp only [List.takeWhile_cons]
  rw [if_pos (by simp [h2] : (!isLineTerm c2) = true)]
  simp only [show (2 - 1 : ℕ) = 1 from rfl, List.take_succ_cons, List.take_zero,
    List.length_cons, List.length_nil, List.drop_succ_cons, List.drop_zero]

theorem reM_six (d1 d2 d3 d4 d5 d6 : Char)
    (h : ∀ c ∈ [d1, d2, d3, d4, d5, d6], isLineTerm c = false) :
    reM 2 6 [d1, d2, d3, d4, d5, d6] = [[d1, d2], [d3, d4], [d5, d6]] := by
  rw [show (6 : ℕ) = 5 + 1 from rfl,
    reM_step 5 _ _ _ (h d1 (by simp)) (h d2 (by simp)),
    show (5 : ℕ) = 4 + 1 from rfl,
    reM_step 4 _ _ _ (h d3 (by simp)) (h d4 (by simp)),
    show (4 : ℕ) = 3 + 1 from rfl,
    reM_step 3 _ _ _ (h d5 (by simp)) (h d6 (by simp))]
  rfl

theorem hex_no_line_term : ∀ c ∈ hexDigitChars, isLineTerm c = false := by decide

theorem parseIntHex_pair :
    ∀ c1 ∈ hexDigitChars, ∀ c2 ∈ hexDigitChars,
      parseIntHex [c1, c2] = some ((16 * hexVal c1 + hexVal c2 : ℕ) : ℚ) := by
  decide

theorem intToHex_pair :
    ∀ c1 ∈ hexDigitChars, ∀ c2 ∈ hexDigitChars,
      intToHex (some ((16 * hexVal c1 + hexVal c2 : ℕ) : ℚ)) =
        [c1.toLower, c2.toLower] := by
  decide

theorem hexToRgb_six (d1 d2 d3 d4 d5 d6 : Char)
    (h : ∀ c ∈ [d1, d2, d3, d4, d5, d6], c ∈ hexDigitChars) :
    hexToRgb (String.mk ['#', d1, d2, d3, d4, d5, d6]) =
      String.mk (("rgb" : String).data ++ '(' :: interComma
        [natToDec (16 * hexVal d1 + hexVal d2),
         natToDec (16 * hexVal d3 + hexVal d4),
         natToDec (16 * hexVal d5 + hexVal d6)] ++ [')']) := by
  have hnl : ∀ c ∈ [d1, d2, d3, d4, d5, d6], isLineTerm c = false :=
    fun c hc => hex_no_line_term c (h c hc)
  rw [hexToRgb]
  simp only []
  rw [show (String.mk ['#', d1, d2, d3, d4, d5, d6]).data.drop 1 =
    [d1, d2, d3, d4, d5, d6] from rfl]
  rw [show [d1, d2, d3, d4, d5, d6].length = 6 from rfl,
    show (if 6 ≤ (6 : ℕ) then 2 else 1) = 2 from rfl]
  rw [reM_six d1 d2 d3 d4 d5 d6 hnl]
  simp only []
  rw [if_neg (by simp : ¬ ([d1, d2].length = 1))]
  rw [if_neg (by simp : ¬ ([[d1, d2], [d3, d4], [d5, d6]].length = 4))]
  rw [show mapEntries hexEntry 0 [[d1, d2], [d3, d4], [d5, d6]] =
    [jsNumToString (parseIntHex [d1, d2]), jsNumToString (parseIntHex [d3, d4]),
     jsNumToString (parseIntHex [d5, d6])] from rfl]
  rw [parseIntHex_pair d1 (h d1 (by simp)) d2 (h d2 (by simp)),
    parseIntHex_pair d3 (h d3 (by simp)) d4 (h d4 (by simp)),
    parseIntHex_pair d5 (h d5 (by simp)) d6 (h d6 (by simp))]
  simp only [jsNumToString, numToStr_natCast]

/-- Claim C3: for every 6-digit hex color `#rrggbb`, converting to rgb
notation with hexToRgb and back with rgbToHex reproduces the original hex
string with every digit lowercased (equality up to letter case). -/
theorem c3_hex_roundtrip (d1 d2 d3 d4 d5 d6 : Char)
    (h : ∀ c ∈ [d1, d2, d3, d4, d5, d6], c ∈ hexDigitChars) :
    rgbToHex (.str (hexToRgb (String.mk ['#', d1, d2, d3, d4, d5, d6]))) =
      .ok (String.mk ['#', d1.toLower, d2.toLower, d3.toLower,
        d4.toLower, d5.toLower, d6.toLower]) := by
  rw [hexToRgb_six d1 d2 d3 d4 d5 d6 h]
  rw [rgbToHex]
  have hpre : List.isPrefixOf ['#'] (String.mk (("rgb" : String).data ++ '(' :: interComma
      [natToDec (16 * hexVal d1 + hexVal d2), natToDec (16 * hexVal d3 + hexVal d4),
       natToDec (16 * hexVal d5 + hexVal d6)] ++ [')'])).data = false := rfl
  rw [if_neg (by simp [hpre])]
  have hch : ∀ x ∈ natToDec (16 * hexVal d1 + hexVal d2) ::
      [natToDec (16 * hexVal d3 + hexVal d4), natToDec (16 * hexVal d5 + hexVal d6)],
      ',' ∉ x ∧ '(' ∉ x := by
    intro x hx
    rcases List.mem_cons.mp hx with rfl | hx
    · exact natToDec_entry_ok _
    rcases List.mem_cons.mp hx with rfl | hx
    · exact natToDec_entry_ok _
    rcases List.mem_cons.mp hx with rfl | hx
    · exact natToDec_entry_ok _
    · exact absurd hx (List.not_mem_nil x)
  have hd := decomposeStr_assembled "rgb" (natToDec (16 * hexVal d1 + hexVal d2))
    [natToDec (16 * hexVal d3 + hexVal d4), natToDec (16 * hexVal d5 + hexVal d6)]
    (by decide) hch
  simp only [decomposeColor]
  rw [hd, ok_bind]
  simp only [List.map_cons, List.map_nil, parseFloat_natToDec]
  show Except.ok (rgbToHexObj _) = _
  rw [rgbToHexObj]
  simp only [List.map_cons, List.map_nil]
  rw [intToHex_pair d1 (h d1 (by simp)) d2 (h d2 (by simp)),
    intToHex_pair d3 (h d3 (by simp)) d4 (h d4 (by simp)),
    intToHex_pair d5 (h d5 (by simp)) d6 (h d6 (by simp))]
  rfl

/-- Claim C3 witness: the roundtrip at `#0A1b2C` returns `#0a1b2c`. -/
theorem c3_hex_roundtrip_witness :
    rgbToHex (.str (hexToRgb (String.mk ['#', '0', 'A', '1', 'b', '2', 'C']))) =
      .ok (String.mk ['#', '0', 'a', '1', 'b', '2', 'c']) :=
  c3_hex_roundtrip '0' 'A' '1' 'b' '2' 'C' (by decide)

end Colors
